import Mathlib

/-!
# kube_jobs: priority queue and admission-controlled dispatcher

A shallow embedding of `internal/queue/priority_queue.go` (together with the
`container/heap` routines it calls) and of the dispatcher in
`pkg/api/handlers/processor.go`, followed by the properties proved about them.

Conventions of the embedding:

* a Go slice `[]*Job` is a `List Job`; every `*Job` in the slice is a distinct
  object (each is allocated by `Enqueue`), so a write through the pointer is a
  write to the list cell that holds it;
* Go `int` values that are only compared or stored (`Priority`, `Posn`) are `Int`;
  slice indices and lengths are `Nat`;
* a run-time panic of a queue or heap routine is `none`; an unrecovered panic of the
  dispatcher is the `crashed` flag of its state;
* `for`-loops whose trip count is bounded by the slice length run on a fuel
  argument that is initialised with such a bound.
-/

namespace KubeJobs

/-! ## Data model -/

/-- JobSpec of `pkg/models/job.go`. -/
structure JobSpec where
  ID : String
  Name : String
  Priority : Int
  Command : String
  Args : List String
  Namespace : String
  Image : String
deriving DecidableEq, Repr

/-- The dynamic value held by the `Spec interface{}` field of a queue entry:
either a `models.JobSpec` or a value of some other dynamic type. -/
inductive SpecValue where
  | jobSpec (s : JobSpec)
  | other (typeName : String)
deriving DecidableEq, Repr

/-- Job of `internal/queue/priority_queue.go`. -/
structure Job where
  Priority : Int
  Spec : SpecValue
  ID : String
  Posn : Int
deriving DecidableEq, Repr

/-- The part of a queue entry that identifies it: everything except the
position field, which the heap rewrites as the entry moves. -/
def Job.payload (j : Job) : Int × SpecValue × String := (j.Priority, j.Spec, j.ID)

/-- PriorityQueue is `[]*Job`. -/
abbrev PriorityQueue := List Job

namespace PriorityQueue

/-- Go `func (pq PriorityQueue) Len() int`. -/
def Len (pq : PriorityQueue) : Nat := pq.length

/-- Go `func (pq PriorityQueue) Less(i, j int) bool`: `pq[i].Priority > pq[j].Priority`.
An index out of range panics in Go; `container/heap` never passes one, and the
model answers `false` there. -/
def Less (pq : PriorityQueue) (i j : Nat) : Bool :=
  match pq[i]?, pq[j]? with
  | some a, some b => decide (a.Priority > b.Priority)
  | _, _ => false

/-- Go `func (pq PriorityQueue) Swap(i, j int)`: exchange the two cells, then
`pq[i].Posn = i; pq[j].Posn = j`. An index out of range panics in Go;
`container/heap` never passes one, and the model leaves the slice alone there. -/
def Swap (pq : PriorityQueue) (i j : Nat) : PriorityQueue :=
  match pq[i]?, pq[j]? with
  | some a, some b => (pq.set i { b with Posn := (i : Int) }).set j { a with Posn := (j : Int) }
  | _, _ => pq

/-- Go `func (pq *PriorityQueue) Push(x interface{})`: append, then
`x.Posn = len(*pq) - 1`. -/
def Push (pq : PriorityQueue) (x : Job) : PriorityQueue :=
  pq ++ [{ x with Posn := ((pq.length + 1 : Nat) : Int) - 1 }]

/-- Go `func (pq *PriorityQueue) Pop() interface{}`: take the last cell, set its
`Posn` to `-1`, shrink the slice by one. On an empty slice `old[n-1]` panics. -/
def Pop (pq : PriorityQueue) : Option (Job × PriorityQueue) :=
  match pq[pq.length - 1]? with
  | none => none
  | some job => some ({ job with Posn := -1 }, pq.take (pq.length - 1))

/-- Go `func (pq PriorityQueue) Peek() *Job`. -/
def Peek (pq : PriorityQueue) : Option Job :=
  if pq.length = 0 then none else pq[0]?

end PriorityQueue

/-! ## `container/heap` over `PriorityQueue`

The routines of the Go standard library package `container/heap` that the queue
calls, transcribed from `container/heap/heap.go` and specialised to the
`heap.Interface` implementation above. -/

namespace heap

/-- Loop of `heap.up`:
`for { i := (j - 1) / 2; if i == j || !h.Less(j, i) { break }; h.Swap(i, j); j = i }`.
Go's `(j - 1) / 2` truncates towards zero, so it is `0` for `j = 0`, as is the
truncated subtraction on `Nat`. The second component is the index at which the
element that started at `j` ends up. -/
def upLoop : Nat → PriorityQueue → Nat → PriorityQueue × Nat
  | 0, h, j => (h, j)
  | fuel + 1, h, j =>
    let i := (j - 1) / 2
    if i = j ∨ !h.Less j i then (h, j)
    else upLoop fuel (h.Swap i j) i

/-- Go `func up(h Interface, j int)`, together with the final index of the element that
started at `j`; the index halves on every iteration, so `j + 1` iterations are enough
(`upLoop_fuel`). -/
def upAt (h : PriorityQueue) (j : Nat) : PriorityQueue × Nat := upLoop (j + 1) h j

/-- Go `func up(h Interface, j int)`. -/
def up (h : PriorityQueue) (j : Nat) : PriorityQueue := (upAt h j).1

/-- The loop of `heap.down`:
`for { j1 := 2*i + 1; if j1 >= n || j1 < 0 { break }; j := j1;
if j2 := j1 + 1; j2 < n && h.Less(j2, j1) { j = j2 };
if !h.Less(j, i) { break }; h.Swap(i, j); i = j }`.
(`j1 < 0` is the overflow guard of the machine integer and never holds for an
index of a real slice.) -/
def downLoop : Nat → PriorityQueue → Nat → Nat → PriorityQueue
  | 0, h, _, _ => h
  | fuel + 1, h, i, n =>
    let j1 := 2 * i + 1
    if j1 ≥ n then h
    else
      let j := if j1 + 1 < n ∧ h.Less (j1 + 1) j1 then j1 + 1 else j1
      if !h.Less j i then h
      else downLoop fuel (h.Swap i j) j n

/-- Go `func down(h Interface, i0, n int) bool`; the index grows on every iteration
and stays below `n`, so `n` iterations are enough (`downLoop_fuel`). The boolean result is unused
by `Init` and `Pop` and is not modelled. -/
def down (h : PriorityQueue) (i0 n : Nat) : PriorityQueue := downLoop n h i0 n

/-- The loop of `heap.Init`: `for i := n/2 - 1; i >= 0; i-- { down(h, i, n) }`,
with `k` the number of iterations left (`i = k - 1`). -/
def initLoop (n : Nat) : Nat → PriorityQueue → PriorityQueue
  | 0, h => h
  | k + 1, h => initLoop n k (down h k n)

/-- Go `func Init(h Interface)`. -/
def Init (h : PriorityQueue) : PriorityQueue := initLoop h.Len (h.Len / 2) h

/-- Go `func Push(h Interface, x any)`: `h.Push(x); up(h, h.Len()-1)`, together with
the index at which `x` ends up (`x` is a pointer, so the caller can still read the
`Posn` of the entry after the call). -/
def PushAt (h : PriorityQueue) (x : Job) : PriorityQueue × Nat :=
  let h1 := h.Push x
  upAt h1 (h1.Len - 1)

/-- Go `func Push(h Interface, x any)`. -/
def Push (h : PriorityQueue) (x : Job) : PriorityQueue := (PushAt h x).1

/-- Go `func Pop(h Interface) any`:
`n := h.Len() - 1; h.Swap(0, n); down(h, 0, n); return h.Pop()`. -/
def Pop (h : PriorityQueue) : Option (Job × PriorityQueue) :=
  let n := h.Len - 1
  let h1 := h.Swap 0 n
  let h2 := down h1 0 n
  h2.Pop

end heap

/-! ## The concurrent queue wrapper

Every method holds `mu` for its whole body, so each is one atomic transition of
the queue; the mutex itself carries no state. -/

/-- ConcJobQueue of `internal/queue/priority_queue.go`. -/
structure ConcJobQueue where
  pq : PriorityQueue
deriving DecidableEq, Repr

/-- Go `func NewConcJobQueue() *ConcJobQueue`. -/
def NewConcJobQueue : ConcJobQueue := { pq := heap.Init [] }

namespace ConcJobQueue

/-- Go `func (jq *ConcJobQueue) Enqueue(id string, priority int, spec interface{}) int`:
builds `&Job{Priority: priority, ID: id, Spec: spec}` (so `Posn` starts at `0`),
pushes it on the heap and returns `job.Posn`. -/
def Enqueue (jq : ConcJobQueue) (id : String) (priority : Int) (spec : SpecValue) :
    Int × ConcJobQueue :=
  let job : Job := { Priority := priority, Spec := spec, ID := id, Posn := 0 }
  let r := heap.PushAt jq.pq job
  let posn := match r.1[r.2]? with
    | some j => j.Posn
    | none => job.Posn
  (posn, { pq := r.1 })

/-- Go `func (jq *ConcJobQueue) Dequeue() *Job`; `none` is the `nil` result. -/
def Dequeue (jq : ConcJobQueue) : Option Job × ConcJobQueue :=
  if jq.pq.Len = 0 then (none, jq)
  else
    match heap.Pop jq.pq with
    | some (job, pq1) => (some job, { pq := pq1 })
    | none => (none, jq)

/-- Go `func (jq *ConcJobQueue) Peek() *Job`. -/
def Peek (jq : ConcJobQueue) : Option Job := jq.pq.Peek

/-- Go `func (jq *ConcJobQueue) Size() int`. -/
def Size (jq : ConcJobQueue) : Nat := jq.pq.Len

/-- Go `func (jq *ConcJobQueue) IsEmpty() bool`. -/
def IsEmpty (jq : ConcJobQueue) : Bool := decide (jq.Size = 0)

end ConcJobQueue

/-! ## Call sequences on a queue -/

/-- One call made by a client of the queue. -/
inductive QueueOp where
  | enqueue (id : String) (priority : Int) (spec : SpecValue)
  | dequeue
deriving DecidableEq, Repr

namespace ConcJobQueue

/-- The queue after one call. -/
def applyOp (jq : ConcJobQueue) : QueueOp → ConcJobQueue
  | .enqueue id priority spec => (jq.Enqueue id priority spec).2
  | .dequeue => jq.Dequeue.2

/-- The queue after a sequence of calls, first call first. -/
def run (jq : ConcJobQueue) (ops : List QueueOp) : ConcJobQueue := ops.foldl applyOp jq

/-- No `Dequeue` of the sequence is issued while the queue is empty. -/
def neverDequeuesEmpty : ConcJobQueue → List QueueOp → Bool
  | _, [] => true
  | jq, op :: ops =>
    (match op with
      | .dequeue => !jq.IsEmpty
      | .enqueue _ _ _ => true) && neverDequeuesEmpty (jq.applyOp op) ops

/-- Enqueue a list of `(id, priority, spec)` triples in order. -/
def enqueueAll (jq : ConcJobQueue) (jobs : List (String × Int × SpecValue)) : ConcJobQueue :=
  jobs.foldl (fun q j => (q.Enqueue j.1 j.2.1 j.2.2).2) jq

/-- Call `Dequeue` until it returns `nil`, at most `fuel` times, collecting the
entries it returned in order. -/
def dequeueAll : Nat → ConcJobQueue → List Job × ConcJobQueue
  | 0, jq => ([], jq)
  | fuel + 1, jq =>
    match jq.Dequeue with
    | (none, jq1) => ([], jq1)
    | (some job, jq1) =>
      let r := dequeueAll fuel jq1
      (job :: r.1, r.2)

end ConcJobQueue

/-- Number of `Enqueue` calls in a sequence. -/
def countEnqueue (ops : List QueueOp) : Nat :=
  (ops.filter (fun op => match op with | .enqueue _ _ _ => true | .dequeue => false)).length

/-- Number of `Dequeue` calls in a sequence. -/
def countDequeue (ops : List QueueOp) : Nat :=
  (ops.filter (fun op => match op with | .enqueue _ _ _ => false | .dequeue => true)).length

/-! ## Specification predicates for the queue -/

/-- Priority of the entry at index `k` (`0` beyond the end of the slice). -/
def prioAt (pq : PriorityQueue) (k : Nat) : Int :=
  match pq[k]? with
  | some a => a.Priority
  | none => 0

/-- Max-heap order on the first `n` cells: no cell has a greater priority than its
parent, the cell at `(k - 1) / 2`. -/
def HeapUpTo (pq : PriorityQueue) (n : Nat) : Prop :=
  ∀ k, 0 < k → k < n → prioAt pq k ≤ prioAt pq ((k - 1) / 2)

/-- Index consistency: the entry stored at index `k` records `Posn = k`. -/
def PosnOk (pq : PriorityQueue) : Prop :=
  ∀ (k : Nat) (a : Job), pq[k]? = some a → a.Posn = (k : Int)

/-- Loop invariant of `heap.up` at index `j`: heap order holds on the first `n` cells except
possibly between `j` and its parent, and the children of `j` are in order with the parent
of `j`. -/
def UpInv (pq : PriorityQueue) (n j : Nat) : Prop :=
  (∀ k, 0 < k → k < n → k ≠ j → prioAt pq k ≤ prioAt pq ((k - 1) / 2)) ∧
  (∀ k, 0 < k → k < n → (k - 1) / 2 = j → 0 < j → prioAt pq k ≤ prioAt pq ((j - 1) / 2))

/-- Loop invariant of `heap.down` at index `i`: heap order holds on the first `n` cells
except possibly between `i` and its children, and the children of `i` are in order with the
parent of `i`. -/
def DownInv (pq : PriorityQueue) (n i : Nat) : Prop :=
  (∀ k, 0 < k → k < n → (k - 1) / 2 ≠ i → prioAt pq k ≤ prioAt pq ((k - 1) / 2)) ∧
  (∀ k, 0 < k → k < n → (k - 1) / 2 = i → 0 < i → prioAt pq k ≤ prioAt pq ((i - 1) / 2))

/-- Invariant of the queue: the slice is a max-heap and every entry records its index. -/
def QueueInv (pq : PriorityQueue) : Prop := HeapUpTo pq pq.length ∧ PosnOk pq

/-- Payload of the entry that `Enqueue(id, priority, spec)` creates. -/
def entryPayload (j : String × Int × SpecValue) : Int × SpecValue × String := (j.2.1, j.2.2, j.1)

/-- A job record with the given name and priority, as the submission handler would store it. -/
def scenarioSpec (name : String) (priority : Int) : JobSpec :=
  { ID := "id-" ++ name, Name := name, Priority := priority, Command := "echo", Args := [],
    Namespace := "", Image := "busybox" }

/-- The scenario of the specification: A(priority 5), B(priority 1), C(priority 10). -/
def scenarioJobs : List (String × Int × SpecValue) :=
  [("id-A", 5, .jobSpec (scenarioSpec "A" 5)), ("id-B", 1, .jobSpec (scenarioSpec "B" 1)),
   ("id-C", 10, .jobSpec (scenarioSpec "C" 10))]

/-- A call sequence that leaves two entries queued. -/
def scenarioOps : List QueueOp :=
  [.enqueue "id-A" 5 (.jobSpec (scenarioSpec "A" 5)), .enqueue "id-B" 1 (.jobSpec (scenarioSpec "B" 1)),
   .enqueue "id-C" 10 (.jobSpec (scenarioSpec "C" 10)), .dequeue]

/-! ## The dispatcher (`pkg/api/handlers/processor.go`)

The dispatcher is a set of goroutines over shared state: the control loop
`processJobs`, one execution task per launched job, and the HTTP handlers. The
embedding is a transition system. Its state holds the fields of `JobHandler`,
the cancellation state of the context given to `Start`, and a program counter
for each goroutine; one transition is one access to the shared state (a channel
operation, a critical section, a queue method, a `WaitGroup` call). A `select`
is one transition per ready case, the `default` case being ready only when no
other is. -/

/-- A Go `map[string]models.JobSpec`, as a list with at most one entry per key. -/
abbrev JobTable := List (String × JobSpec)

namespace JobTable

/-- Go `delete(m, name)`. -/
def delete (t : JobTable) (name : String) : JobTable := t.filter (fun e => !(e.1 == name))

/-- Go `m[name] = spec`. -/
def insert (t : JobTable) (name : String) (spec : JobSpec) : JobTable :=
  (name, spec) :: t.delete name

/-- The keys of the map. -/
def keys (t : JobTable) : List String := t.map Prod.fst

end JobTable

/-- JobHandler of `processor.go`. A channel of `struct{}` is represented by what
can be observed of it: `concurrencyLock` by its capacity and the number of
buffered tokens, `shutdownCh` and `doneCh` by whether they have been closed.
`wg` is the counter of the `sync.WaitGroup`. (`jobManager` is the execution
backend and the embedded `RWMutex` delimits the critical sections; neither
carries state of the dispatcher.) -/
structure JobHandler where
  jobQueue : ConcJobQueue
  concurrencyCap : Nat
  concurrencyLock : Nat
  runningJobs : JobTable
  pendingJobs : JobTable
  shutdownCh : Bool
  doneCh : Bool
  wg : Nat
deriving DecidableEq, Repr

/-- Go `func JobProcessor(maxConcurrency int, jobManager *kubernetes.JobManager) *JobHandler`.
`make(chan struct{}, maxConcurrency)` panics for a negative size. -/
def JobProcessor (maxConcurrency : Int) : Option JobHandler :=
  if maxConcurrency < 0 then none
  else some
    { jobQueue := NewConcJobQueue
      concurrencyCap := maxConcurrency.toNat
      concurrencyLock := 0
      runningJobs := []
      pendingJobs := []
      shutdownCh := false
      doneCh := false
      wg := 0 }

/-- What `JobSubmissionHandler` writes to the `http.ResponseWriter`. -/
inductive Response where
  | badRequest (message : String)
  | accepted (name jobID : String) (queuePosition : Int)
deriving DecidableEq, Repr

/-- The HTTP status code of a response: `http.StatusBadRequest` or `http.StatusAccepted`. -/
def Response.status : Response → Nat
  | .badRequest _ => 400
  | .accepted _ _ _ => 202

namespace JobHandler

/-- The first part of `JobSubmissionHandler`, up to and including the critical
section that records the job as pending: decode the body (`body` is the result
of `json.NewDecoder(r.Body).Decode`), reject an empty name, set `JobSpec.ID` to
the fresh identifier `jobID` (`uuid.NewV1().String()`), and store the record in
`pendingJobs`. The result is either the error response or the record that is
about to be enqueued. -/
def recordPending (h : JobHandler) (body : Except String JobSpec) (jobID : String) :
    Except Response JobSpec × JobHandler :=
  match body with
  | .error err => (.error (.badRequest err), h)
  | .ok decoded =>
    if decoded.Name = "" then (.error (.badRequest "Job name is required"), h)
    else
      let spec : JobSpec := { decoded with ID := jobID }
      (.ok spec, { h with pendingJobs := h.pendingJobs.insert spec.Name spec })

/-- The second part of `JobSubmissionHandler`:
`jobPosn := h.jobQueue.Enqueue(jobID, JobSpec.Priority, JobSpec)` and the
202 response. -/
def enqueuePending (h : JobHandler) (spec : JobSpec) : Response × JobHandler :=
  let r := h.jobQueue.Enqueue spec.ID spec.Priority (.jobSpec spec)
  (.accepted spec.Name spec.ID r.1, { h with jobQueue := r.2 })

/-- Go `func (h *JobHandler) JobSubmissionHandler(w http.ResponseWriter, r *http.Request)`,
run without interference from other goroutines. -/
def JobSubmissionHandler (h : JobHandler) (body : Except String JobSpec) (jobID : String) :
    Response × JobHandler :=
  match h.recordPending body jobID with
  | (.error resp, h1) => (resp, h1)
  | (.ok spec, h1) => h1.enqueuePending spec

end JobHandler

/-- Where the goroutine started by `Start` stands. -/
inductive LoopPC where
  /-- Before `Start` is called. -/
  | notStarted
  /-- At the first `select` of an iteration (shutdown / cancellation / default). -/
  | selectStop
  /-- About to evaluate `h.jobQueue.IsEmpty()`. -/
  | checkEmpty
  /-- At the second `select` (slot / shutdown / cancellation). -/
  | selectSlot
  /-- Holding a slot, about to call `h.jobQueue.Dequeue()`. -/
  | dequeue
  /-- Holding a slot and the result of `Dequeue`, about to test it and move the
  job from `pendingJobs` to `runningJobs`. -/
  | move (job : Option Job)
  /-- The job is in `runningJobs`; about to `h.wg.Add(1)` and start its goroutine. -/
  | launch (spec : JobSpec)
  /-- The loop has returned; in the deferred function of `processJobs`, at `h.wg.Wait()`. -/
  | drain
  /-- In the deferred function of the goroutine of `Start`, about to `close(h.doneCh)`. -/
  | startDefer
  /-- The goroutine has ended. -/
  | exited
deriving DecidableEq, Repr

/-- Where an execution task (the goroutine started for one job) stands. -/
inductive TaskPC where
  /-- In `h.jobManager.CreateKubernetesJob(ctx, JobSpec)`. -/
  | backend
  /-- In the deferred cleanup, about to `<-h.concurrencyLock`. -/
  | release
  /-- About to `delete(h.runningJobs, JobSpec.Name)`. -/
  | remove
  /-- About to `h.wg.Done()`. -/
  | wgDone
  /-- The goroutine has ended. -/
  | finished
deriving DecidableEq, Repr

/-- How the call to the execution backend ends. -/
inductive BackendOutcome where
  | success
  | failure (reason : String)
  | fault
deriving DecidableEq, Repr

/-- An execution task: the job it was started for and where it stands. -/
structure Task where
  spec : JobSpec
  pc : TaskPC
deriving DecidableEq, Repr

/-- The task occupies a slot of `concurrencyLock`: it has been launched and has
not yet released its slot. -/
def Task.holdsSlot (t : Task) : Bool :=
  match t.pc with
  | .backend => true
  | .release => true
  | _ => false

/-- The task has not yet removed its job from `runningJobs`. -/
def Task.inRunning (t : Task) : Bool :=
  match t.pc with
  | .backend => true
  | .release => true
  | .remove => true
  | _ => false

/-- The whole dispatcher: the handler, the context of `Start`, the control loop,
the execution tasks in launch order, the submissions that have recorded their
job as pending and have not yet enqueued it, and whether an unrecovered panic
has ended the process. -/
structure Sys where
  h : JobHandler
  ctxDone : Bool
  loop : LoopPC
  tasks : List Task
  inflight : List JobSpec
  crashed : Bool
deriving DecidableEq, Repr

/-- The state right after `JobProcessor` returned `h`. -/
def Sys.fresh (h : JobHandler) : Sys :=
  { h := h, ctxDone := false, loop := .notStarted, tasks := [], inflight := [], crashed := false }

/-- The transitions of the dispatcher. -/
inductive Action where
  /-- Call of `Start(ctx)`. -/
  | start
  /-- The context given to `Start` is cancelled. -/
  | cancel
  /-- Call of `Shutdown()`: `close(h.shutdownCh)`. -/
  | shutdown
  /-- A request enters `JobSubmissionHandler` and runs up to the pending insert. -/
  | submit (body : Except String JobSpec) (jobID : String)
  /-- The `k`-th submission in flight calls `Enqueue` and responds. -/
  | submitEnqueue (k : Nat)
  /-- First `select`, `case <-h.shutdownCh`. -/
  | loopStopShutdown
  /-- First `select`, `case <-ctx.Done()`. -/
  | loopStopCtx
  /-- First `select`, `default`. -/
  | loopStopDefault
  /-- The test `if h.jobQueue.IsEmpty()`. -/
  | loopCheckEmpty
  /-- Second `select`, `case h.concurrencyLock <- struct{}{}`. -/
  | loopAcquire
  /-- Second `select`, `case <-h.shutdownCh`. -/
  | loopSlotShutdown
  /-- Second `select`, `case <-ctx.Done()`. -/
  | loopSlotCtx
  /-- The call `job := h.jobQueue.Dequeue()`. -/
  | loopDequeue
  /-- The `nil` test, the type assertion and the pending-to-running move. -/
  | loopMove
  /-- The calls `h.wg.Add(1)` and `go func(JobSpec models.JobSpec)`. -/
  | loopLaunch
  /-- The deferred function of `processJobs`: `h.wg.Wait(); close(h.doneCh)`. -/
  | loopDrain
  /-- The deferred function of the goroutine of `Start`: `close(h.doneCh)`. -/
  | loopStartDefer
  /-- Task `i`: the backend call ends. -/
  | taskBackend (i : Nat) (outcome : BackendOutcome)
  /-- Task `i`: `<-h.concurrencyLock`. -/
  | taskRelease (i : Nat)
  /-- Task `i`: `delete(h.runningJobs, JobSpec.Name)`. -/
  | taskRemove (i : Nat)
  /-- Task `i`: `h.wg.Done()`. -/
  | taskDone (i : Nat)
deriving Repr

namespace Sys

/-- Set the program counter of the control loop. -/
def goto (s : Sys) (pc : LoopPC) : Sys := { s with loop := pc }

/-- Set the program counter of task `i`. -/
def setTask (s : Sys) (i : Nat) (t : Task) (pc : TaskPC) : Sys :=
  { s with tasks := s.tasks.set i { t with pc := pc } }

/-- Go `close(h.doneCh)`: closing a closed channel is a run-time panic. When it
happens in the last deferred function of the goroutine nothing recovers it and
the process ends. -/
def closeDone (s : Sys) (next : LoopPC) : Sys :=
  if s.h.doneCh then { s with crashed := true }
  else { s with h := { s.h with doneCh := true }, loop := next }

/-- One transition; `none` when the action is not enabled in the state (the
goroutine is elsewhere, or the operation blocks). -/
def step (s : Sys) (a : Action) : Option Sys :=
  if s.crashed then none
  else
    match a with
    | .start =>
      if s.loop = .notStarted then some (s.goto .selectStop) else none
    | .cancel => some { s with ctxDone := true }
    | .shutdown =>
      if s.h.shutdownCh then some { s with crashed := true }
      else some { s with h := { s.h with shutdownCh := true } }
    | .submit body jobID =>
      match s.h.recordPending body jobID with
      | (.error _, h1) => some { s with h := h1 }
      | (.ok spec, h1) => some { s with h := h1, inflight := s.inflight ++ [spec] }
    | .submitEnqueue k =>
      match s.inflight[k]? with
      | none => none
      | some spec =>
        some { s with h := (s.h.enqueuePending spec).2, inflight := s.inflight.eraseIdx k }
    | .loopStopShutdown =>
      if s.loop = .selectStop ∧ s.h.shutdownCh then some (s.goto .drain) else none
    | .loopStopCtx =>
      if s.loop = .selectStop ∧ s.ctxDone then some (s.goto .checkEmpty) else none
    | .loopStopDefault =>
      if s.loop = .selectStop ∧ ¬ s.h.shutdownCh ∧ ¬ s.ctxDone then some (s.goto .checkEmpty)
      else none
    | .loopCheckEmpty =>
      if s.loop = .checkEmpty then
        if s.h.jobQueue.IsEmpty then some (s.goto .selectStop) else some (s.goto .selectSlot)
      else none
    | .loopAcquire =>
      if s.loop = .selectSlot ∧ s.h.concurrencyLock < s.h.concurrencyCap then
        some { s with h := { s.h with concurrencyLock := s.h.concurrencyLock + 1 },
                      loop := .dequeue }
      else none
    | .loopSlotShutdown =>
      if s.loop = .selectSlot ∧ s.h.shutdownCh then some (s.goto .drain) else none
    | .loopSlotCtx =>
      if s.loop = .selectSlot ∧ s.ctxDone then some (s.goto .drain) else none
    | .loopDequeue =>
      if s.loop = .dequeue then
        some { s with h := { s.h with jobQueue := s.h.jobQueue.Dequeue.2 },
                      loop := .move s.h.jobQueue.Dequeue.1 }
      else none
    | .loopMove =>
      match s.loop with
      | .move none =>
        -- `<-h.concurrencyLock; continue`
        if 0 < s.h.concurrencyLock then
          some { s with h := { s.h with concurrencyLock := s.h.concurrencyLock - 1 },
                        loop := .selectStop }
        else none
      | .move (some job) =>
        match job.Spec with
        | .other _ =>
          -- the type assertion fails: `<-h.concurrencyLock; continue`
          if 0 < s.h.concurrencyLock then
            some { s with h := { s.h with concurrencyLock := s.h.concurrencyLock - 1 },
                          loop := .selectStop }
          else none
        | .jobSpec spec =>
          some { s with h := { s.h with pendingJobs := s.h.pendingJobs.delete spec.Name,
                                        runningJobs := s.h.runningJobs.insert spec.Name spec },
                        loop := .launch spec }
      | _ => none
    | .loopLaunch =>
      match s.loop with
      | .launch spec =>
        some { s with h := { s.h with wg := s.h.wg + 1 },
                      tasks := s.tasks ++ [{ spec := spec, pc := .backend }],
                      loop := .selectStop }
      | _ => none
    | .loopDrain =>
      if s.loop = .drain ∧ s.h.wg = 0 then some (s.closeDone .startDefer) else none
    | .loopStartDefer =>
      if s.loop = .startDefer then some (s.closeDone .exited) else none
    | .taskBackend i _ =>
      match s.tasks[i]? with
      | some t => if t.pc = .backend then some (s.setTask i t .release) else none
      | none => none
    | .taskRelease i =>
      match s.tasks[i]? with
      | some t =>
        if t.pc = .release ∧ 0 < s.h.concurrencyLock then
          some { s.setTask i t .remove with
            h := { s.h with concurrencyLock := s.h.concurrencyLock - 1 } }
        else none
      | none => none
    | .taskRemove i =>
      match s.tasks[i]? with
      | some t =>
        if t.pc = .remove then
          some { s.setTask i t .wgDone with
            h := { s.h with runningJobs := s.h.runningJobs.delete t.spec.Name } }
        else none
      | none => none
    | .taskDone i =>
      match s.tasks[i]? with
      | some t =>
        -- `Done` on a zero counter panics; the recoverer of the task, which runs after
        -- the cleanup, catches it and the counter stays at zero
        if t.pc = .wgDone then
          some { s.setTask i t .finished with h := { s.h with wg := s.h.wg - 1 } }
        else none
      | none => none

/-- Run a sequence of transitions, first one first; `none` when one of them is
not enabled where it is attempted. -/
def run (s : Sys) : List Action → Option Sys
  | [] => some s
  | a :: rest =>
    match s.step a with
    | none => none
    | some s1 => run s1 rest

/-- Number of execution tasks that have been launched and have not yet
released their slot. -/
def activeTasks (s : Sys) : Nat := s.tasks.countP Task.holdsSlot

/-- The control loop holds a slot that it has acquired and has neither given
back nor handed to a launched task. -/
def loopHoldsSlot (s : Sys) : Bool :=
  match s.loop with
  | .dequeue => true
  | .move _ => true
  | .launch _ => true
  | _ => false

end Sys

/-- The job name carried by a queue entry, when its `Spec` is a `models.JobSpec`. -/
def Job.name? (j : Job) : Option String :=
  match j.Spec with
  | .jobSpec s => some s.Name
  | .other _ => none

/-- The name under which an action records a job as pending, if it does. -/
def Action.submittedName? : Action → Option String
  | .submit (.ok decoded) _ => if decoded.Name = "" then none else some decoded.Name
  | _ => none

/-- The names recorded as pending by the submissions of a trace, in order. -/
def submittedNames (acts : List Action) : List String := acts.filterMap Action.submittedName?

/-- The transitions of `Sys.step`, one rule per way a transition can fire, with
the enabling conditions spelled out. `Sys.step s a = some s1` implies `Step s a s1`
(`step_sound` below); the invariants are proved by cases on the rule. -/
inductive Step : Sys → Action → Sys → Prop where
  | start (s : Sys) (hc : s.crashed = false) (hl : s.loop = .notStarted) :
    Step s .start (s.goto .selectStop)
  | cancel (s : Sys) (hc : s.crashed = false) :
    Step s .cancel { s with ctxDone := true }
  | shutdownTwice (s : Sys) (hc : s.crashed = false) (hs : s.h.shutdownCh = true) :
    Step s .shutdown { s with crashed := true }
  | shutdown (s : Sys) (hc : s.crashed = false) (hs : s.h.shutdownCh = false) :
    Step s .shutdown { s with h := { s.h with shutdownCh := true } }
  | submitRejected (s : Sys) (body : Except String JobSpec) (jobID : String) (resp : Response)
    (hc : s.crashed = false) (hr : s.h.recordPending body jobID = (.error resp, s.h)) :
    Step s (.submit body jobID) { s with h := s.h }
  | submitRecorded (s : Sys) (d : JobSpec) (jobID : String)
    (hc : s.crashed = false) (hn : d.Name ≠ "") :
    Step s (.submit (.ok d) jobID)
      { s with h := { s.h with pendingJobs := s.h.pendingJobs.insert d.Name { d with ID := jobID } },
               inflight := s.inflight ++ [{ d with ID := jobID }] }
  | submitEnqueue (s : Sys) (k : Nat) (spec : JobSpec)
    (hc : s.crashed = false) (hk : s.inflight[k]? = some spec) :
    Step s (.submitEnqueue k)
      { s with h := (s.h.enqueuePending spec).2, inflight := s.inflight.eraseIdx k }
  | loopStopShutdown (s : Sys) (hc : s.crashed = false) (hl : s.loop = .selectStop)
    (hs : s.h.shutdownCh = true) :
    Step s .loopStopShutdown (s.goto .drain)
  | loopStopCtx (s : Sys) (hc : s.crashed = false) (hl : s.loop = .selectStop)
    (hx : s.ctxDone = true) :
    Step s .loopStopCtx (s.goto .checkEmpty)
  | loopStopDefault (s : Sys) (hc : s.crashed = false) (hl : s.loop = .selectStop)
    (hs : s.h.shutdownCh = false) (hx : s.ctxDone = false) :
    Step s .loopStopDefault (s.goto .checkEmpty)
  | loopCheckEmptyYes (s : Sys) (hc : s.crashed = false) (hl : s.loop = .checkEmpty)
    (he : s.h.jobQueue.IsEmpty = true) :
    Step s .loopCheckEmpty (s.goto .selectStop)
  | loopCheckEmptyNo (s : Sys) (hc : s.crashed = false) (hl : s.loop = .checkEmpty)
    (he : s.h.jobQueue.IsEmpty = false) :
    Step s .loopCheckEmpty (s.goto .selectSlot)
  | loopAcquire (s : Sys) (hc : s.crashed = false) (hl : s.loop = .selectSlot)
    (hfree : s.h.concurrencyLock < s.h.concurrencyCap) :
    Step s .loopAcquire
      { s with h := { s.h with concurrencyLock := s.h.concurrencyLock + 1 }, loop := .dequeue }
  | loopSlotShutdown (s : Sys) (hc : s.crashed = false) (hl : s.loop = .selectSlot)
    (hs : s.h.shutdownCh = true) :
    Step s .loopSlotShutdown (s.goto .drain)
  | loopSlotCtx (s : Sys) (hc : s.crashed = false) (hl : s.loop = .selectSlot)
    (hx : s.ctxDone = true) :
    Step s .loopSlotCtx (s.goto .drain)
  | loopDequeue (s : Sys) (hc : s.crashed = false) (hl : s.loop = .dequeue) :
    Step s .loopDequeue
      { s with h := { s.h with jobQueue := s.h.jobQueue.Dequeue.2 },
               loop := .move s.h.jobQueue.Dequeue.1 }
  | loopMoveNil (s : Sys) (hc : s.crashed = false) (hl : s.loop = .move none)
    (hlock : 0 < s.h.concurrencyLock) :
    Step s .loopMove
      { s with h := { s.h with concurrencyLock := s.h.concurrencyLock - 1 }, loop := .selectStop }
  | loopMoveBadType (s : Sys) (job : Job) (typeName : String) (hc : s.crashed = false)
    (hl : s.loop = .move (some job)) (hspec : job.Spec = .other typeName)
    (hlock : 0 < s.h.concurrencyLock) :
    Step s .loopMove
      { s with h := { s.h with concurrencyLock := s.h.concurrencyLock - 1 }, loop := .selectStop }
  | loopMove (s : Sys) (job : Job) (spec : JobSpec) (hc : s.crashed = false)
    (hl : s.loop = .move (some job)) (hspec : job.Spec = .jobSpec spec) :
    Step s .loopMove
      { s with h := { s.h with pendingJobs := s.h.pendingJobs.delete spec.Name,
                               runningJobs := s.h.runningJobs.insert spec.Name spec },
               loop := .launch spec }
  | loopLaunch (s : Sys) (spec : JobSpec) (hc : s.crashed = false) (hl : s.loop = .launch spec) :
    Step s .loopLaunch
      { s with h := { s.h with wg := s.h.wg + 1 },
               tasks := s.tasks ++ [{ spec := spec, pc := .backend }],
               loop := .selectStop }
  | loopDrain (s : Sys) (hc : s.crashed = false) (hl : s.loop = .drain) (hwg : s.h.wg = 0) :
    Step s .loopDrain (s.closeDone .startDefer)
  | loopStartDefer (s : Sys) (hc : s.crashed = false) (hl : s.loop = .startDefer) :
    Step s .loopStartDefer (s.closeDone .exited)
  | taskBackend (s : Sys) (i : Nat) (outcome : BackendOutcome) (t : Task)
    (hc : s.crashed = false) (ht : s.tasks[i]? = some t) (hpc : t.pc = .backend) :
    Step s (.taskBackend i outcome) (s.setTask i t .release)
  | taskRelease (s : Sys) (i : Nat) (t : Task)
    (hc : s.crashed = false) (ht : s.tasks[i]? = some t) (hpc : t.pc = .release)
    (hlock : 0 < s.h.concurrencyLock) :
    Step s (.taskRelease i)
      { s.setTask i t .remove with h := { s.h with concurrencyLock := s.h.concurrencyLock - 1 } }
  | taskRemove (s : Sys) (i : Nat) (t : Task)
    (hc : s.crashed = false) (ht : s.tasks[i]? = some t) (hpc : t.pc = .remove) :
    Step s (.taskRemove i)
      { s.setTask i t .wgDone with
        h := { s.h with runningJobs := s.h.runningJobs.delete t.spec.Name } }
  | taskDone (s : Sys) (i : Nat) (t : Task)
    (hc : s.crashed = false) (ht : s.tasks[i]? = some t) (hpc : t.pc = .wgDone) :
    Step s (.taskDone i) { s.setTask i t .finished with h := { s.h with wg := s.h.wg - 1 } }

/-! ## Invariants and scenarios of the dispatcher -/

/-- Slot accounting: the tokens in `concurrencyLock` are those of the active
tasks plus the one the control loop may be holding, and never exceed the capacity. -/
def SlotInv (s : Sys) : Prop :=
  s.h.concurrencyLock = s.activeTasks + (if s.loopHoldsSlot then 1 else 0) ∧
  s.h.concurrencyLock ≤ s.h.concurrencyCap

/-- Names of the jobs that are on their way to the running table: recorded by a
submission in flight, queued, or just dequeued by the control loop. -/
def Sys.pendSide (s : Sys) : List String :=
  s.inflight.map (fun spec => spec.Name) ++ s.h.jobQueue.pq.filterMap Job.name? ++
    (match s.loop with
      | .move (some job) => job.name?.toList
      | _ => [])

/-- Names of the jobs that have been moved to the running table and whose task
has not yet removed them. -/
def Sys.runSide (s : Sys) : List String :=
  (match s.loop with
    | .launch spec => [spec.Name]
    | _ => []) ++ (s.tasks.filter Task.inRunning).map (fun t => t.spec.Name)

/-- Name accounting, relative to the names `subm` recorded by the submissions so far, all
distinct: every name is on its way to the running table or in it at most once, and only
if it was submitted; a key of the pending table is on its way; the keys of the running
table are exactly the names of the jobs moved there and not yet removed. -/
def NameInv (s : Sys) (subm : List String) : Prop :=
  QueueInv s.h.jobQueue.pq ∧ ∀ n : String,
    s.pendSide.count n + s.runSide.count n ≤ 1 ∧
    (0 < s.pendSide.count n + s.runSide.count n → 0 < subm.count n) ∧
    (0 < s.h.pendingJobs.keys.count n → 0 < s.pendSide.count n) ∧
    s.h.runningJobs.keys.count n = s.runSide.count n

/-- Job name carried by a payload (the name of a queue entry depends on its payload only). -/
def payloadName? (p : Int × SpecValue × String) : Option String :=
  match p.2.1 with
  | .jobSpec s => some s.Name
  | .other _ => none

/-- Run a trace from the state that `JobProcessor(maxConcurrency, _)` builds. -/
def Sys.runFresh (maxConcurrency : Int) (acts : List Action) : Option Sys :=
  match JobProcessor maxConcurrency with
  | none => none
  | some h => (Sys.fresh h).run acts

/-- A decoded submission body with the given name and priority. -/
def scenarioBody (name : String) (priority : Int) : Except String JobSpec :=
  .ok { ID := "", Name := name, Priority := priority, Command := "echo", Args := [],
        Namespace := "", Image := "busybox" }

/-- The steps by which the control loop, starting an iteration with a job queued
and a slot free, acquires the slot, dequeues the job and moves it to running. -/
def admissionSteps : List Action :=
  [.loopStopDefault, .loopCheckEmpty, .loopAcquire, .loopDequeue, .loopMove]

/-- A handler with capacity 2 in which job "a" is running and job "b" is pending and queued. -/
def scenarioHandler : JobHandler :=
  { jobQueue := (NewConcJobQueue.Enqueue "id-b" 1 (.jobSpec (scenarioSpec "b" 1))).2
    concurrencyCap := 2
    concurrencyLock := 1
    runningJobs := [("a", scenarioSpec "a" 7)]
    pendingJobs := [("b", scenarioSpec "b" 1)]
    shutdownCh := false
    doneCh := false
    wg := 1 }

/-- A trace in which the name "x" is submitted, admitted, and submitted again while the
first job is still in the running table. -/
def duplicateNameTrace : List Action :=
  [.start, .submit (scenarioBody "x" 1) "u1", .submitEnqueue 0] ++ admissionSteps ++
  [.submit (scenarioBody "x" 1) "u2"]

/-- A trace in which two jobs with distinct names are submitted and the first is launched. -/
def distinctNameTrace : List Action :=
  [.start, .submit (scenarioBody "x" 1) "u1", .submit (scenarioBody "y" 2) "u2",
   .submitEnqueue 0, .submitEnqueue 0] ++ admissionSteps ++ [.loopLaunch]

/-- The handler that `JobProcessor` builds for a non-negative capacity. -/
def freshHandler (cap : Nat) : JobHandler := ⟨NewConcJobQueue, cap, 0, [], [], false, false, 0⟩

/-- The state at the end of `distinctNameTrace` with capacity 1: "y", which has the
higher priority, is running in task 0 and "x" is pending in the queue. -/
def distinctNameState : Sys :=
  { h := { jobQueue := (NewConcJobQueue.Enqueue "u1" 1 (.jobSpec { scenarioSpec "x" 1 with ID := "u1" })).2
           concurrencyCap := 1
           concurrencyLock := 1
           runningJobs := [("y", { scenarioSpec "y" 2 with ID := "u2" })]
           pendingJobs := [("x", { scenarioSpec "x" 1 with ID := "u1" })]
           shutdownCh := false
           doneCh := false
           wg := 1 }
    ctxDone := false
    loop := .selectStop
    tasks := [{ spec := { scenarioSpec "y" 2 with ID := "u2" }, pc := .backend }]
    inflight := []
    crashed := false }

/-- A trace that stops right after the control loop has acquired a slot. -/
def acquireTrace : List Action :=
  [.start, .submit (scenarioBody "x" 1) "u1", .submitEnqueue 0,
   .loopStopDefault, .loopCheckEmpty, .loopAcquire]

/-- A trace in which two jobs named "x" are both launched. -/
def twoSameNameLaunchedTrace : List Action :=
  [.start, .submit (scenarioBody "x" 1) "u1", .submitEnqueue 0,
   .submit (scenarioBody "x" 1) "u2", .submitEnqueue 0] ++
  admissionSteps ++ [.loopLaunch] ++ admissionSteps ++ [.loopLaunch]

/-- A continuation of `distinctNameTrace` without a slot release: the backend call of
task 0 ends and the control loop starts its next iteration. -/
def noReleaseTrace : List Action :=
  [.taskBackend 0 .success, .loopStopDefault, .loopCheckEmpty]

/-- The state `distinctNameState` after `noReleaseTrace`: task 0 is about to release its
slot and the control loop waits for a slot. -/
def waitingState : Sys :=
  { distinctNameState with
    loop := .selectSlot
    tasks := [{ spec := { scenarioSpec "y" 2 with ID := "u2" }, pc := .release }] }

/-- A trace in which job "x" is launched and `Shutdown` is called while its task is in the
backend call; the control loop then takes the shutdown case of its first `select`. -/
def shutdownTrace : List Action :=
  [.start, .submit (scenarioBody "x" 1) "u1", .submitEnqueue 0] ++ admissionSteps ++
  [.loopLaunch, .shutdown, .loopStopShutdown]

/-- The cleanup of task 0: the backend call ends, the slot is released, the job is removed
from the running table, and the wait group is signalled. -/
def taskFinishTrace : List Action :=
  [.taskBackend 0 .success, .taskRelease 0, .taskRemove 0, .taskDone 0]

/-- A trace in which the context is cancelled while the queue is empty. -/
def cancelEmptyTrace : List Action := [.start, .cancel]

/-- A trace in which job "x" is queued and the context is then cancelled. -/
def cancelQueuedTrace : List Action :=
  [.start, .submit (scenarioBody "x" 1) "u1", .submitEnqueue 0, .cancel]

/-- A trace in which job "x" is queued and `Shutdown` is then called. -/
def shutdownQueuedTrace : List Action :=
  [.start, .submit (scenarioBody "x" 1) "u1", .submitEnqueue 0, .shutdown]

/-- One full iteration of the control loop that enters through the cancellation case of
the first `select` and launches a job. -/
def iterationAfterCancel : List Action :=
  [.loopStopCtx, .loopCheckEmpty, .loopAcquire, .loopDequeue, .loopMove, .loopLaunch]

/-- The deferred function of the goroutine of `Start` is only reached with `doneCh` closed. -/
def DoneInv (s : Sys) : Prop := s.loop = .startDefer → s.h.doneCh = true

/-- Every accepted submission of the trace, at the moment its job is recorded as pending,
carries a name that is not in the list `avoid` of the state it is accepted in. The trace is
followed with `Sys.step`; nothing is required beyond a step that is not enabled. -/
def Sys.submitsOutside (avoid : Sys → List String) : Sys → List Action → Bool
  | _, [] => true
  | s, a :: rest =>
    (match a.submittedName? with
      | some n => !(avoid s).contains n
      | none => true) &&
    (match s.step a with
      | some s1 => submitsOutside avoid s1 rest
      | none => true)

/-- Keys of the running table. -/
def Sys.runningNames (s : Sys) : List String := s.h.runningJobs.keys

/-- Names of the jobs that have been accepted and that no task has yet removed from the
running table: recorded by a submission in flight, queued, held by the control loop, or
running. -/
def Sys.liveNames (s : Sys) : List String := s.pendSide ++ s.runSide

/-- Number of execution tasks between their slot release and their removal from the
running table. -/
def Sys.releasedNotRemoved (s : Sys) : Nat := s.tasks.countP (fun t => decide (t.pc = .remove))

/-- The control loop holds a slot for which it has not yet moved a job to the running
table: it is between the slot acquisition and the pending-to-running move. -/
def Sys.loopHoldsUnmovedSlot (s : Sys) : Bool :=
  match s.loop with
  | .dequeue => true
  | .move _ => true
  | _ => false

/-- No job name is a key of both tables. -/
def DisjInv (s : Sys) : Prop :=
  ∀ n : String, s.h.pendingJobs.keys.count n = 0 ∨ s.h.runningJobs.keys.count n = 0

/-- The state at the end of `twoSameNameLaunchedTrace` with capacity 2: both jobs named "x"
are in the backend call and the running table has the one entry "x". -/
def twoSameNameState : Sys :=
  { h := { jobQueue := { pq := [] }
           concurrencyCap := 2
           concurrencyLock := 2
           runningJobs := [("x", { scenarioSpec "x" 1 with ID := "u2" })]
           pendingJobs := []
           shutdownCh := false
           doneCh := false
           wg := 2 }
    ctxDone := false
    loop := .selectStop
    tasks := [{ spec := { scenarioSpec "x" 1 with ID := "u1" }, pc := .backend },
              { spec := { scenarioSpec "x" 1 with ID := "u2" }, pc := .backend }]
    inflight := []
    crashed := false }

/-- A trace in which job "x" runs to completion and the name "x" is then submitted again
and launched. -/
def reuseNameTrace : List Action :=
  [.start, .submit (scenarioBody "x" 1) "u1", .submitEnqueue 0] ++ admissionSteps ++
  [.loopLaunch] ++ taskFinishTrace ++
  [.submit (scenarioBody "x" 1) "u2", .submitEnqueue 0] ++ admissionSteps ++ [.loopLaunch]

/-- The state at the end of `reuseNameTrace` with capacity 1: the first task is over and the
second job named "x" is in the backend call. -/
def reuseNameState : Sys :=
  { h := { jobQueue := { pq := [] }
           concurrencyCap := 1
           concurrencyLock := 1
           runningJobs := [("x", { scenarioSpec "x" 1 with ID := "u2" })]
           pendingJobs := []
           shutdownCh := false
           doneCh := false
           wg := 1 }
    ctxDone := false
    loop := .selectStop
    tasks := [{ spec := { scenarioSpec "x" 1 with ID := "u1" }, pc := .finished },
              { spec := { scenarioSpec "x" 1 with ID := "u2" }, pc := .backend }]
    inflight := []
    crashed := false }

/-- A trace that stops when the task of job "x" has released its slot and has not yet
removed "x" from the running table. -/
def releasedTrace : List Action :=
  [.start, .submit (scenarioBody "x" 1) "u1", .submitEnqueue 0] ++ admissionSteps ++
  [.loopLaunch, .taskBackend 0 .success, .taskRelease 0]

/-- A handler with capacity 1 on which `Shutdown` has closed `shutdownCh`; nothing is
queued, pending or running. -/
def shutdownHandler : JobHandler := { freshHandler 1 with shutdownCh := true }

/-- A trace in which `Shutdown` is called, the control loop leaves through the shutdown
case, and a job named "x" is then submitted and enqueued. -/
def lateSubmissionTrace : List Action :=
  [.start, .shutdown, .loopStopShutdown, .submit (scenarioBody "x" 1) "u1", .submitEnqueue 0]

/-! ## The heap and the queue: lemmas -/

theorem cons_set_perm {α : Type} (xs : List α) (k : Nat) (a b : α) (h : xs[k]? = some b) :
    List.Perm (b :: xs.set k a) (a :: xs) := by
  induction xs generalizing k with
  | nil => simp at h
  | cons x xs ih =>
    cases k with
    | zero =>
      simp at h
      subst h
      exact List.Perm.swap _ _ _
    | succ k =>
      simp at h
      simp only [List.set_cons_succ]
      exact (List.Perm.swap x b _).trans (((ih k h).cons x).trans (List.Perm.swap a x _))

theorem set_set_perm {α : Type} (l : List α) (i j : Nat) (a b : α)
    (hi : l[i]? = some a) (hj : l[j]? = some b) :
    List.Perm ((l.set i b).set j a) l := by
  induction l generalizing i j with
  | nil => simp at hi
  | cons x xs ih =>
    cases i with
    | zero =>
      cases j with
      | zero =>
        simp at hi hj
        subst hi
        simp
      | succ j =>
        simp at hi hj
        subst hi
        simp only [List.set_cons_zero, List.set_cons_succ]
        exact cons_set_perm xs j x b hj
    | succ i =>
      cases j with
      | zero =>
        simp at hi hj
        subst hj
        simp only [List.set_cons_zero, List.set_cons_succ]
        exact cons_set_perm xs i x a hi
      | succ j =>
        simp at hi hj
        simp only [List.set_cons_succ]
        exact (ih i j hi hj).cons x

theorem Swap_length (pq : PriorityQueue) (i j : Nat) : (pq.Swap i j).length = pq.length := by
  unfold PriorityQueue.Swap
  split <;> simp

theorem Swap_getElem? (pq : PriorityQueue) (i j k : Nat) (a b : Job)
    (hi : pq[i]? = some a) (hj : pq[j]? = some b) :
    (pq.Swap i j)[k]? =
      if k = j then some { a with Posn := (j : Int) }
      else if k = i then some { b with Posn := (i : Int) }
      else pq[k]? := by
  have hil : i < pq.length := by
    rcases Nat.lt_or_ge i pq.length with h | h
    · exact h
    · rw [List.getElem?_eq_none h] at hi; cases hi
  have hjl : j < pq.length := by
    rcases Nat.lt_or_ge j pq.length with h | h
    · exact h
    · rw [List.getElem?_eq_none h] at hj; cases hj
  unfold PriorityQueue.Swap
  rw [hi, hj]
  simp only [List.getElem?_set, List.length_set]
  by_cases h1 : k = j
  · subst h1; simp [hjl]
  · by_cases h2 : k = i
    · subst h2; simp [hil, h1, Ne.symm h1]
    · simp [h1, h2, Ne.symm h1, Ne.symm h2]

theorem Swap_payload_perm (pq : PriorityQueue) (i j : Nat) :
    List.Perm ((pq.Swap i j).map Job.payload) (pq.map Job.payload) := by
  unfold PriorityQueue.Swap
  split
  · rename_i a b hi hj
    rw [List.map_set, List.map_set]
    exact set_set_perm (pq.map Job.payload) i j a.payload b.payload (by simp [hi]) (by simp [hj])
  · exact List.Perm.refl _

theorem Swap_PosnOk (pq : PriorityQueue) (i j : Nat) (h : PosnOk pq) : PosnOk (pq.Swap i j) := by
  cases hi : pq[i]? with
  | none => unfold PriorityQueue.Swap; rw [hi]; exact h
  | some a =>
    cases hj : pq[j]? with
    | none => unfold PriorityQueue.Swap; rw [hi, hj]; exact h
    | some b =>
      intro k c hc
      rw [Swap_getElem? pq i j k a b hi hj] at hc
      split_ifs at hc with h1 h2
      · cases hc; subst h1; rfl
      · cases hc; subst h2; rfl
      · exact h k c hc

theorem prioAt_Swap (pq : PriorityQueue) (i j k : Nat) (hi : i < pq.length) (hj : j < pq.length) :
    prioAt (pq.Swap i j) k =
      if k = j then prioAt pq i else if k = i then prioAt pq j else prioAt pq k := by
  obtain ⟨a, ha⟩ : ∃ a, pq[i]? = some a := ⟨pq[i], List.getElem?_eq_getElem hi⟩
  obtain ⟨b, hb⟩ : ∃ b, pq[j]? = some b := ⟨pq[j], List.getElem?_eq_getElem hj⟩
  unfold prioAt
  rw [Swap_getElem? pq i j k a b ha hb]
  split_ifs with h1 h2
  · simp [ha]
  · simp [hb]
  · rfl

theorem Less_eq (pq : PriorityQueue) (i j : Nat) (hi : i < pq.length) (hj : j < pq.length) :
    pq.Less i j = decide (prioAt pq i > prioAt pq j) := by
  unfold PriorityQueue.Less prioAt
  rw [List.getElem?_eq_getElem hi, List.getElem?_eq_getElem hj]

/-- The loop of `up` ends by its own `break` within `j + 1` iterations: more fuel changes
nothing. -/
theorem upLoop_fuel : ∀ (fuel1 fuel2 : Nat) (pq : PriorityQueue) (j : Nat),
    j < fuel1 → j < fuel2 → heap.upLoop fuel1 pq j = heap.upLoop fuel2 pq j := by
  intro fuel1
  induction fuel1 with
  | zero => intro fuel2 pq j h; omega
  | succ f1 ih =>
    intro fuel2 pq j h1 h2
    cases fuel2 with
    | zero => omega
    | succ f2 =>
      simp only [heap.upLoop]
      split_ifs with hc
      · rfl
      · have hne : (j - 1) / 2 ≠ j := fun e => hc (Or.inl e)
        exact ih f2 _ _ (by omega) (by omega)

/-- The loop of `down` ends by its own `break` within `n - i` iterations: more fuel changes
nothing. -/
theorem downLoop_fuel : ∀ (fuel1 fuel2 : Nat) (pq : PriorityQueue) (i n : Nat),
    n ≤ i + fuel1 → n ≤ i + fuel2 → heap.downLoop fuel1 pq i n = heap.downLoop fuel2 pq i n := by
  intro fuel1
  induction fuel1 with
  | zero =>
    intro fuel2 pq i n h1 h2
    cases fuel2 with
    | zero => rfl
    | succ f2 =>
      simp only [heap.downLoop]
      rw [if_pos (by omega)]
  | succ f1 ih =>
    intro fuel2 pq i n h1 h2
    cases fuel2 with
    | zero =>
      simp only [heap.downLoop]
      rw [if_pos (by omega)]
    | succ f2 =>
      simp only [heap.downLoop]
      split_ifs with h3 h4 h5 h6
      · rfl
      · rfl
      · exact ih f2 _ _ _ (by omega) (by omega)
      · rfl
      · exact ih f2 _ _ _ (by omega) (by omega)

theorem prioAt_congr (pq : PriorityQueue) (a b : Nat) (h : a = b) : prioAt pq a = prioAt pq b := by
  rw [h]

theorem upLoop_heap : ∀ (fuel : Nat) (pq : PriorityQueue) (j : Nat),
    j < fuel → j < pq.length → UpInv pq pq.length j →
    HeapUpTo (heap.upLoop fuel pq j).1 pq.length := by
  intro fuel
  induction fuel with
  | zero => intro pq j hf; omega
  | succ fuel ih =>
    intro pq j hf hj hinv
    obtain ⟨ha, hb⟩ := hinv
    have hi : (j - 1) / 2 < pq.length := by omega
    simp only [heap.upLoop]
    rw [Less_eq pq j ((j - 1) / 2) hj hi]
    split_ifs with hc
    · intro k hk0 hkn
      by_cases hkj : k = j
      · subst hkj
        rcases hc with hc | hc
        · omega
        · simp at hc; exact hc
      · exact ha k hk0 hkn hkj
    · simp only [not_or, Bool.not_eq_true, Bool.not_eq_false', decide_eq_true_eq,
        Bool.not_eq_true'] at hc
      obtain ⟨hne, hlt⟩ := hc
      have hlt : prioAt pq ((j - 1) / 2) < prioAt pq j := by simpa using hlt
      have hlen := Swap_length pq ((j - 1) / 2) j
      have := ih (pq.Swap ((j - 1) / 2) j) ((j - 1) / 2) (by omega) (by omega) ?_
      · rw [hlen] at this; exact this
      · rw [hlen]
        constructor
        · intro k hk0 hkn hki
          rw [prioAt_Swap pq _ _ k hi hj, prioAt_Swap pq _ _ ((k - 1) / 2) hi hj]
          have a1 := ha k hk0 hkn
          have b1 := hb k hk0 hkn
          have c1 := prioAt_congr pq ((k - 1) / 2) ((j - 1) / 2)
          split_ifs <;> omega
        · intro k hk0 hkn hki hi0
          rw [prioAt_Swap pq _ _ k hi hj, prioAt_Swap pq _ _ (((j - 1) / 2 - 1) / 2) hi hj]
          have a1 := ha k hk0 hkn
          have a2 := ha ((j - 1) / 2) hi0 hi (by omega)
          have c1 := prioAt_congr pq ((k - 1) / 2) ((j - 1) / 2)
          split_ifs <;> omega

theorem downLoop_heap : ∀ (fuel : Nat) (pq : PriorityQueue) (i n : Nat),
    n ≤ i + fuel → n ≤ pq.length → DownInv pq n i →
    HeapUpTo (heap.downLoop fuel pq i n) n := by
  intro fuel
  induction fuel with
  | zero =>
    intro pq i n hf hn hinv
    obtain ⟨ha, hb⟩ := hinv
    intro k hk0 hkn
    exact ha k hk0 hkn (by omega)
  | succ fuel ih =>
    intro pq i n hf hn hinv
    obtain ⟨ha, hb⟩ := hinv
    simp only [heap.downLoop]
    split_ifs with h1 h2 h3 h4
    · intro k hk0 hkn
      exact ha k hk0 hkn (by omega)
    · -- right child is the larger one and is not above `i`
      rw [Less_eq pq _ _ (by omega) (by omega)] at h3
      rw [Less_eq pq _ _ (by omega) (by omega)] at h2
      simp at h2 h3
      intro k hk0 hkn
      have a1 := ha k hk0 hkn
      have c1 := prioAt_congr pq k (2 * i + 1)
      have c2 := prioAt_congr pq k (2 * i + 1 + 1)
      have c3 := prioAt_congr pq ((k - 1) / 2) i
      omega
    · rw [Less_eq pq _ _ (by omega) (by omega)] at h3
      rw [Less_eq pq _ _ (by omega) (by omega)] at h2
      simp at h2 h3
      have hi : i < pq.length := by omega
      have hj : 2 * i + 1 + 1 < pq.length := by omega
      have hlen := Swap_length pq i (2 * i + 1 + 1)
      apply ih (pq.Swap i (2 * i + 1 + 1)) (2 * i + 1 + 1) n (by omega) (by omega)
      constructor
      · intro k hk0 hkn hki
        rw [prioAt_Swap pq _ _ k hi hj, prioAt_Swap pq _ _ ((k - 1) / 2) hi hj]
        have a1 := ha k hk0 hkn
        have b1 := hb k hk0 hkn
        have b2 := hb (2 * i + 1 + 1) (by omega) h2.1 (by omega)
        have c1 := prioAt_congr pq k (2 * i + 1)
        have c2 := prioAt_congr pq ((k - 1) / 2) ((i - 1) / 2)
        split_ifs <;> omega
      · intro k hk0 hkn hki hi0
        rw [prioAt_Swap pq _ _ k hi hj, prioAt_Swap pq _ _ ((2 * i + 1 + 1 - 1) / 2) hi hj]
        have a1 := ha k hk0 hkn (by omega)
        have c1 := prioAt_congr pq ((k - 1) / 2) (2 * i + 1 + 1)
        split_ifs <;> omega
    · -- left child is the larger one and is not above `i`
      rw [Less_eq pq _ _ (by omega) (by omega)] at h4
      simp at h4
      have h2' : 2 * i + 1 + 1 < n → prioAt pq (2 * i + 1 + 1) ≤ prioAt pq (2 * i + 1) := by
        intro hlt
        rw [Less_eq pq _ _ (by omega) (by omega)] at h2
        simp at h2
        exact h2 hlt
      intro k hk0 hkn
      have a1 := ha k hk0 hkn
      have c1 := prioAt_congr pq k (2 * i + 1)
      have c2 := prioAt_congr pq k (2 * i + 1 + 1)
      have c3 := prioAt_congr pq ((k - 1) / 2) i
      omega
    · rw [Less_eq pq _ _ (by omega) (by omega)] at h4
      simp at h4
      have h2' : 2 * i + 1 + 1 < n → prioAt pq (2 * i + 1 + 1) ≤ prioAt pq (2 * i + 1) := by
        intro hlt
        rw [Less_eq pq _ _ (by omega) (by omega)] at h2
        simp at h2
        exact h2 hlt
      have hi : i < pq.length := by omega
      have hj : 2 * i + 1 < pq.length := by omega
      have hlen := Swap_length pq i (2 * i + 1)
      apply ih (pq.Swap i (2 * i + 1)) (2 * i + 1) n (by omega) (by omega)
      constructor
      · intro k hk0 hkn hki
        rw [prioAt_Swap pq _ _ k hi hj, prioAt_Swap pq _ _ ((k - 1) / 2) hi hj]
        have a1 := ha k hk0 hkn
        have b1 := hb k hk0 hkn
        have b2 := hb (2 * i + 1) (by omega) (by omega) (by omega)
        have c1 := prioAt_congr pq k (2 * i + 1 + 1)
        have c2 := prioAt_congr pq ((k - 1) / 2) ((i - 1) / 2)
        split_ifs <;> omega
      · intro k hk0 hkn hki hi0
        rw [prioAt_Swap pq _ _ k hi hj, prioAt_Swap pq _ _ ((2 * i + 1 - 1) / 2) hi hj]
        have a1 := ha k hk0 hkn (by omega)
        have c1 := prioAt_congr pq ((k - 1) / 2) (2 * i + 1)
        split_ifs <;> omega

theorem Swap_getElem?_of_ne (pq : PriorityQueue) (i j k : Nat) (hki : k ≠ i) (hkj : k ≠ j) :
    (pq.Swap i j)[k]? = pq[k]? := by
  unfold PriorityQueue.Swap
  split
  · rw [List.getElem?_set_ne (Ne.symm hkj), List.getElem?_set_ne (Ne.symm hki)]
  · rfl

theorem upLoop_preserves (P : PriorityQueue → Prop)
    (hP : ∀ (pq : PriorityQueue) (i j : Nat), P pq → P (pq.Swap i j)) :
    ∀ (fuel : Nat) (pq : PriorityQueue) (j : Nat), P pq → P (heap.upLoop fuel pq j).1 := by
  intro fuel
  induction fuel with
  | zero => intro pq j h; exact h
  | succ fuel ih =>
    intro pq j h
    simp only [heap.upLoop]
    split_ifs
    · exact h
    · exact ih _ _ (hP pq _ _ h)

theorem downLoop_preserves (P : PriorityQueue → Prop)
    (hP : ∀ (pq : PriorityQueue) (i j : Nat), P pq → P (pq.Swap i j)) :
    ∀ (fuel : Nat) (pq : PriorityQueue) (i n : Nat), P pq → P (heap.downLoop fuel pq i n) := by
  intro fuel
  induction fuel with
  | zero => intro pq i n h; exact h
  | succ fuel ih =>
    intro pq i n h
    simp only [heap.downLoop]
    split_ifs
    · exact h
    · exact h
    · exact ih _ _ _ (hP pq _ _ h)
    · exact h
    · exact ih _ _ _ (hP pq _ _ h)

theorem upLoop_length (fuel : Nat) (pq : PriorityQueue) (j : Nat) :
    (heap.upLoop fuel pq j).1.length = pq.length :=
  upLoop_preserves (fun q => q.length = pq.length)
    (fun q i j h => (Swap_length q i j).trans h) fuel pq j rfl

theorem upLoop_payload_perm (fuel : Nat) (pq : PriorityQueue) (j : Nat) :
    List.Perm ((heap.upLoop fuel pq j).1.map Job.payload) (pq.map Job.payload) :=
  upLoop_preserves (fun q => List.Perm (q.map Job.payload) (pq.map Job.payload))
    (fun q i j h => (Swap_payload_perm q i j).trans h) fuel pq j (List.Perm.refl _)

theorem upLoop_PosnOk (fuel : Nat) (pq : PriorityQueue) (j : Nat) (h : PosnOk pq) :
    PosnOk (heap.upLoop fuel pq j).1 :=
  upLoop_preserves PosnOk (fun q i j h => Swap_PosnOk q i j h) fuel pq j h

theorem upLoop_index_le : ∀ (fuel : Nat) (pq : PriorityQueue) (j : Nat),
    (heap.upLoop fuel pq j).2 ≤ j := by
  intro fuel
  induction fuel with
  | zero => intro pq j; exact Nat.le_refl _
  | succ fuel ih =>
    intro pq j
    simp only [heap.upLoop]
    split_ifs
    · exact Nat.le_refl _
    · have := ih (pq.Swap ((j - 1) / 2) j) ((j - 1) / 2)
      omega

/-- The element that starts at `j` is the one found at the index that `upLoop` reports. -/
theorem upLoop_tracks : ∀ (fuel : Nat) (pq : PriorityQueue) (j : Nat) (a : Job),
    pq[j]? = some a →
    ∃ b, (heap.upLoop fuel pq j).1[(heap.upLoop fuel pq j).2]? = some b ∧ b.payload = a.payload := by
  intro fuel
  induction fuel with
  | zero => intro pq j a h; exact ⟨a, h, rfl⟩
  | succ fuel ih =>
    intro pq j a h
    simp only [heap.upLoop]
    split_ifs with hc
    · exact ⟨a, h, rfl⟩
    · have hjl : j < pq.length := by
        rcases Nat.lt_or_ge j pq.length with h1 | h1
        · exact h1
        · rw [List.getElem?_eq_none h1] at h; cases h
      have hil : (j - 1) / 2 < pq.length := by omega
      have hne : (j - 1) / 2 ≠ j := fun e => hc (Or.inl e)
      have hs : (pq.Swap ((j - 1) / 2) j)[(j - 1) / 2]? =
          some { a with Posn := (((j - 1) / 2 : Nat) : Int) } := by
        rw [Swap_getElem? pq ((j - 1) / 2) j ((j - 1) / 2) pq[(j - 1) / 2] a
          (List.getElem?_eq_getElem hil) h]
        simp [hne]
      obtain ⟨b, hb1, hb2⟩ := ih _ _ _ hs
      exact ⟨b, hb1, hb2⟩

theorem downLoop_length (fuel : Nat) (pq : PriorityQueue) (i n : Nat) :
    (heap.downLoop fuel pq i n).length = pq.length :=
  downLoop_preserves (fun q => q.length = pq.length)
    (fun q i j h => (Swap_length q i j).trans h) fuel pq i n rfl

theorem downLoop_payload_perm (fuel : Nat) (pq : PriorityQueue) (i n : Nat) :
    List.Perm ((heap.downLoop fuel pq i n).map Job.payload) (pq.map Job.payload) :=
  downLoop_preserves (fun q => List.Perm (q.map Job.payload) (pq.map Job.payload))
    (fun q i j h => (Swap_payload_perm q i j).trans h) fuel pq i n (List.Perm.refl _)

theorem downLoop_PosnOk (fuel : Nat) (pq : PriorityQueue) (i n : Nat) (h : PosnOk pq) :
    PosnOk (heap.downLoop fuel pq i n) :=
  downLoop_preserves PosnOk (fun q i j h => Swap_PosnOk q i j h) fuel pq i n h

/-- The loop of `down(h, i, n)` never touches a cell at index `n` or beyond. -/
theorem downLoop_getElem?_ge : ∀ (fuel : Nat) (pq : PriorityQueue) (i n k : Nat),
    n ≤ k → (heap.downLoop fuel pq i n)[k]? = pq[k]? := by
  intro fuel
  induction fuel with
  | zero => intro pq i n k h; rfl
  | succ fuel ih =>
    intro pq i n k h
    simp only [heap.downLoop]
    split_ifs with h1 h2 h3 h4
    · rfl
    · rfl
    · rw [ih _ _ _ _ h]
      exact Swap_getElem?_of_ne pq _ _ k (by omega) (by omega)
    · rfl
    · rw [ih _ _ _ _ h]
      exact Swap_getElem?_of_ne pq _ _ k (by omega) (by omega)

/-- In a heap the root carries the greatest priority. -/
theorem HeapUpTo_root_max (pq : PriorityQueue) (n : Nat) (h : HeapUpTo pq n) :
    ∀ k, k < n → prioAt pq k ≤ prioAt pq 0 := by
  intro k
  induction k using Nat.strong_induction_on with
  | _ k ih =>
    intro hk
    rcases Nat.eq_zero_or_pos k with h0 | h0
    · subst h0; exact le_refl _
    · have h1 := h k h0 hk
      have h2 := ih ((k - 1) / 2) (by omega) (by omega)
      exact le_trans h1 h2

theorem getElem?_some_lt {α : Type} (l : List α) (k : Nat) (a : α) (h : l[k]? = some a) :
    k < l.length := by
  rcases Nat.lt_or_ge k l.length with h1 | h1
  · exact h1
  · rw [List.getElem?_eq_none h1] at h; cases h

theorem Push_length (pq : PriorityQueue) (x : Job) : (pq.Push x).length = pq.length + 1 := by
  simp [PriorityQueue.Push]

theorem Push_getElem?_lt (pq : PriorityQueue) (x : Job) (k : Nat) (h : k < pq.length) :
    (pq.Push x)[k]? = pq[k]? := by
  unfold PriorityQueue.Push
  rw [List.getElem?_append_left h]

theorem Push_getElem?_last (pq : PriorityQueue) (x : Job) :
    (pq.Push x)[pq.length]? = some { x with Posn := (pq.length : Int) } := by
  unfold PriorityQueue.Push
  rw [List.getElem?_append_right (Nat.le_refl _)]
  simp

theorem Push_PosnOk (pq : PriorityQueue) (x : Job) (h : PosnOk pq) : PosnOk (pq.Push x) := by
  intro k a ha
  have hk := getElem?_some_lt _ _ _ ha
  rw [Push_length] at hk
  rcases Nat.lt_or_ge k pq.length with h1 | h1
  · rw [Push_getElem?_lt pq x k h1] at ha
    exact h k a ha
  · have : k = pq.length := by omega
    subst this
    rw [Push_getElem?_last] at ha
    cases ha
    rfl

theorem prioAt_Push_lt (pq : PriorityQueue) (x : Job) (k : Nat) (h : k < pq.length) :
    prioAt (pq.Push x) k = prioAt pq k := by
  unfold prioAt
  rw [Push_getElem?_lt pq x k h]

theorem PushAt_spec (pq : PriorityQueue) (x : Job) (h : QueueInv pq) :
    QueueInv (heap.PushAt pq x).1 ∧ (heap.PushAt pq x).1.length = pq.length + 1 ∧
    List.Perm ((heap.PushAt pq x).1.map Job.payload) (x.payload :: pq.map Job.payload) ∧
    ∃ b, (heap.PushAt pq x).1[(heap.PushAt pq x).2]? = some b ∧ b.payload = x.payload ∧
      b.Posn = ((heap.PushAt pq x).2 : Int) := by
  obtain ⟨hheap, hposn⟩ := h
  have hlen : (pq.Push x).Len - 1 = pq.length := by
    simp [PriorityQueue.Len, Push_length]
  have hupinv : UpInv (pq.Push x) (pq.Push x).length pq.length := by
    rw [Push_length]
    constructor
    · intro k hk0 hkn hne
      rw [prioAt_Push_lt pq x k (by omega), prioAt_Push_lt pq x _ (by omega)]
      exact hheap k hk0 (by omega)
    · intro k hk0 hkn hp hj0
      omega
  have hpo : PosnOk (heap.PushAt pq x).1 := by
    unfold heap.PushAt heap.upAt
    exact upLoop_PosnOk _ _ _ (Push_PosnOk pq x hposn)
  have hl : (heap.PushAt pq x).1.length = pq.length + 1 := by
    unfold heap.PushAt heap.upAt
    simp only [upLoop_length, Push_length]
  refine ⟨⟨?_, hpo⟩, hl, ?_, ?_⟩
  · rw [hl, ← Push_length pq x]
    unfold heap.PushAt heap.upAt
    simp only [hlen]
    exact upLoop_heap _ _ _ (by omega) (by rw [Push_length]; omega) hupinv
  · unfold heap.PushAt heap.upAt
    refine (upLoop_payload_perm _ _ _).trans ?_
    unfold PriorityQueue.Push
    rw [List.map_append]
    exact (List.perm_append_comm).trans (List.Perm.refl _)
  · obtain ⟨b, hb1, hb2⟩ := upLoop_tracks ((pq.Push x).Len - 1 + 1) (pq.Push x)
      ((pq.Push x).Len - 1) { x with Posn := (pq.length : Int) }
      (by rw [hlen]; exact Push_getElem?_last pq x)
    refine ⟨b, hb1, hb2, ?_⟩
    exact hpo _ _ hb1

theorem Pop_spec (pq : PriorityQueue) (h : QueueInv pq) (hne : 0 < pq.length) :
    ∃ (e r : Job) (pq1 : PriorityQueue), pq[0]? = some e ∧ r = { e with Posn := -1 } ∧
      heap.Pop pq = some (r, pq1) ∧ QueueInv pq1 ∧ pq1.length + 1 = pq.length ∧
      List.Perm (pq.map Job.payload) (r.payload :: pq1.map Job.payload) ∧
      ∀ a ∈ pq, a.Priority ≤ r.Priority := by
  obtain ⟨hheap, hposn⟩ := h
  obtain ⟨e, he⟩ : ∃ e, pq[0]? = some e := ⟨pq[0], List.getElem?_eq_getElem hne⟩
  obtain ⟨l, hl⟩ : ∃ l, pq[pq.length - 1]? = some l :=
    ⟨pq[pq.length - 1], List.getElem?_eq_getElem (by omega)⟩
  -- the swapped slice
  have hs_len := Swap_length pq 0 (pq.length - 1)
  have hs_last : (pq.Swap 0 (pq.length - 1))[pq.length - 1]? =
      some { e with Posn := ((pq.length - 1 : Nat) : Int) } := by
    rw [Swap_getElem? pq 0 (pq.length - 1) (pq.length - 1) e l he hl]
    simp
  -- after sifting down
  have hd_len := downLoop_length (pq.length - 1) (pq.Swap 0 (pq.length - 1)) 0 (pq.length - 1)
  have hd_last := downLoop_getElem?_ge (pq.length - 1) (pq.Swap 0 (pq.length - 1)) 0
    (pq.length - 1) (pq.length - 1) (Nat.le_refl _)
  have hd_posn : PosnOk (heap.downLoop (pq.length - 1) (pq.Swap 0 (pq.length - 1)) 0
      (pq.length - 1)) := downLoop_PosnOk _ _ _ _ (Swap_PosnOk _ _ _ hposn)
  have hd_heap : HeapUpTo (heap.downLoop (pq.length - 1) (pq.Swap 0 (pq.length - 1)) 0
      (pq.length - 1)) (pq.length - 1) := by
    apply downLoop_heap _ _ _ _ (by omega) (by omega)
    constructor
    · intro k hk0 hkn hp
      rw [prioAt_Swap pq _ _ k hne (by omega), prioAt_Swap pq _ _ ((k - 1) / 2) hne (by omega)]
      have := hheap k hk0 (by omega)
      split_ifs <;> omega
    · intro k hk0 hkn hp h0
      omega
  have hd_perm := (downLoop_payload_perm (pq.length - 1) (pq.Swap 0 (pq.length - 1)) 0
    (pq.length - 1)).trans (Swap_payload_perm pq 0 (pq.length - 1))
  generalize hq : heap.downLoop (pq.length - 1) (pq.Swap 0 (pq.length - 1)) 0 (pq.length - 1) = q
    at hd_len hd_last hd_posn hd_heap hd_perm
  rw [hs_last] at hd_last
  rw [hs_len] at hd_len
  have hpop : heap.Pop pq = some ({ e with Posn := -1 }, q.take (q.length - 1)) := by
    unfold heap.Pop
    simp only [PriorityQueue.Len, heap.down, hq]
    unfold PriorityQueue.Pop
    rw [hd_len, hd_last]
  have htake_get : ∀ k, k < pq.length - 1 → (q.take (q.length - 1))[k]? = q[k]? := by
    intro k hk
    rw [List.getElem?_take, hd_len]
    simp [hk]
  have htake_len : (q.take (q.length - 1)).length = pq.length - 1 := by
    rw [List.length_take, hd_len]; omega
  have hsplit : q = q.take (q.length - 1) ++ [{ e with Posn := ((pq.length - 1 : Nat) : Int) }] := by
    apply List.ext_getElem?
    intro k
    rcases Nat.lt_trichotomy k (pq.length - 1) with hk | hk | hk
    · rw [List.getElem?_append_left (by omega), htake_get k hk]
    · subst hk
      rw [List.getElem?_append_right (by omega), htake_len]
      simp [hd_last]
    · rw [List.getElem?_eq_none (by omega), List.getElem?_eq_none]
      simp [htake_len]; omega
  refine ⟨e, { e with Posn := -1 }, q.take (q.length - 1), he, rfl, hpop, ⟨?_, ?_⟩, ?_, ?_, ?_⟩
  · rw [htake_len]
    intro k hk0 hkn
    have := hd_heap k hk0 hkn
    unfold prioAt at this ⊢
    rw [htake_get k hkn, htake_get _ (by omega)]
    exact this
  · intro k a ha
    have hk := getElem?_some_lt _ _ _ ha
    rw [htake_len] at hk
    rw [htake_get k hk] at ha
    exact hd_posn k a ha
  · rw [htake_len]; omega
  · refine hd_perm.symm.trans ?_
    conv_lhs => rw [hsplit]
    rw [List.map_append]
    exact List.perm_append_comm
  · intro a ha
    obtain ⟨k, hk, hka⟩ := List.getElem_of_mem ha
    have h1 := HeapUpTo_root_max pq pq.length hheap k hk
    unfold prioAt at h1
    rw [List.getElem?_eq_getElem hk, he, hka] at h1
    exact h1

theorem QueueInv_nil : QueueInv [] := by
  constructor
  · intro k hk0 hkn; simp at hkn
  · intro k a ha; simp at ha

theorem NewConcJobQueue_pq : NewConcJobQueue.pq = [] := rfl

theorem Enqueue_spec (jq : ConcJobQueue) (id : String) (priority : Int) (spec : SpecValue)
    (h : QueueInv jq.pq) :
    QueueInv (jq.Enqueue id priority spec).2.pq ∧
    (jq.Enqueue id priority spec).2.Size = jq.Size + 1 ∧
    List.Perm ((jq.Enqueue id priority spec).2.pq.map Job.payload)
      ((priority, spec, id) :: jq.pq.map Job.payload) := by
  obtain ⟨h1, h2, h3, _⟩ := PushAt_spec jq.pq
    { Priority := priority, Spec := spec, ID := id, Posn := 0 } h
  exact ⟨h1, h2, h3⟩

theorem Dequeue_empty (jq : ConcJobQueue) (h : jq.pq.length = 0) : jq.Dequeue = (none, jq) := by
  unfold ConcJobQueue.Dequeue
  simp [PriorityQueue.Len, h]

theorem Dequeue_spec (jq : ConcJobQueue) (h : QueueInv jq.pq) (hne : 0 < jq.pq.length) :
    ∃ (e r : Job) (jq1 : ConcJobQueue), jq.pq[0]? = some e ∧ r = { e with Posn := -1 } ∧
      jq.Dequeue = (some r, jq1) ∧ QueueInv jq1.pq ∧ jq1.Size + 1 = jq.Size ∧
      List.Perm (jq.pq.map Job.payload) (r.payload :: jq1.pq.map Job.payload) ∧
      ∀ a ∈ jq.pq, a.Priority ≤ r.Priority := by
  obtain ⟨e, r, pq1, h1, h2, h3, h4, h5, h6, h7⟩ := Pop_spec jq.pq h hne
  refine ⟨e, r, { pq := pq1 }, h1, h2, ?_, h4, h5, h6, h7⟩
  unfold ConcJobQueue.Dequeue
  rw [h3, if_neg (by simp only [PriorityQueue.Len]; omega)]

theorem applyOp_QueueInv (jq : ConcJobQueue) (op : QueueOp) (h : QueueInv jq.pq) :
    QueueInv (jq.applyOp op).pq := by
  cases op with
  | enqueue id priority spec => exact (Enqueue_spec jq id priority spec h).1
  | dequeue =>
    rcases Nat.eq_zero_or_pos jq.pq.length with h0 | h0
    · simp only [ConcJobQueue.applyOp, Dequeue_empty jq h0]; exact h
    · obtain ⟨e, r, jq1, _, _, h3, h4, _⟩ := Dequeue_spec jq h h0
      simp only [ConcJobQueue.applyOp, h3]; exact h4

theorem run_QueueInv (ops : List QueueOp) : ∀ (jq : ConcJobQueue), QueueInv jq.pq →
    QueueInv (jq.run ops).pq := by
  induction ops with
  | nil => intro jq h; exact h
  | cons op ops ih =>
    intro jq h
    exact ih _ (applyOp_QueueInv jq op h)

theorem run_size (ops : List QueueOp) : ∀ (jq : ConcJobQueue), QueueInv jq.pq →
    jq.neverDequeuesEmpty ops = true →
    (jq.run ops).Size + countDequeue ops = jq.Size + countEnqueue ops := by
  induction ops with
  | nil => intro jq _ _; simp [ConcJobQueue.run, countDequeue, countEnqueue]
  | cons op ops ih =>
    intro jq h hok
    simp only [ConcJobQueue.neverDequeuesEmpty, Bool.and_eq_true] at hok
    have := ih _ (applyOp_QueueInv jq op h) hok.2
    cases op with
    | enqueue id priority spec =>
      have hs := (Enqueue_spec jq id priority spec h).2.1
      simp only [ConcJobQueue.applyOp] at this
      simp only [ConcJobQueue.run, List.foldl_cons, ConcJobQueue.applyOp, countDequeue,
        countEnqueue, List.filter_cons] at this ⊢
      simp at this ⊢
      omega
    | dequeue =>
      have hne : 0 < jq.pq.length := by
        have hk := hok.1
        simp only [ConcJobQueue.IsEmpty, ConcJobQueue.Size, PriorityQueue.Len,
          Bool.not_eq_true', decide_eq_false_iff_not] at hk
        omega
      obtain ⟨e, r, jq1, _, _, h3, _, h5, _⟩ := Dequeue_spec jq h hne
      simp only [ConcJobQueue.applyOp, h3] at this
      simp only [ConcJobQueue.run, List.foldl_cons, ConcJobQueue.applyOp, countDequeue,
        countEnqueue, List.filter_cons, h3] at this ⊢
      simp at this ⊢
      omega

theorem enqueueAll_spec (jobs : List (String × Int × SpecValue)) : ∀ (jq : ConcJobQueue),
    QueueInv jq.pq →
    QueueInv (jq.enqueueAll jobs).pq ∧ (jq.enqueueAll jobs).Size = jq.Size + jobs.length ∧
    List.Perm ((jq.enqueueAll jobs).pq.map Job.payload)
      (jobs.map entryPayload ++ jq.pq.map Job.payload) := by
  induction jobs with
  | nil => intro jq h; exact ⟨h, rfl, List.Perm.refl _⟩
  | cons j jobs ih =>
    intro jq h
    obtain ⟨h1, h2, h3⟩ := Enqueue_spec jq j.1 j.2.1 j.2.2 h
    obtain ⟨g1, g2, g3⟩ := ih _ h1
    refine ⟨g1, ?_, ?_⟩
    · simp only [ConcJobQueue.enqueueAll, List.foldl_cons, List.length_cons] at g2 ⊢
      omega
    · simp only [ConcJobQueue.enqueueAll, List.foldl_cons] at g3 ⊢
      refine g3.trans ?_
      refine (List.Perm.append_left _ h3).trans ?_
      simp only [List.map_cons, entryPayload]
      exact List.perm_middle

theorem dequeueAll_spec : ∀ (fuel : Nat) (jq : ConcJobQueue), QueueInv jq.pq → jq.Size ≤ fuel →
    (jq.dequeueAll fuel).2.Size = 0 ∧
    List.Perm ((jq.dequeueAll fuel).1.map Job.payload) (jq.pq.map Job.payload) ∧
    List.Pairwise (fun a b : Job => b.Priority ≤ a.Priority) (jq.dequeueAll fuel).1 ∧
    ∀ r ∈ (jq.dequeueAll fuel).1, r.Posn = -1 := by
  intro fuel
  induction fuel with
  | zero =>
    intro jq h hs
    have : jq.pq = [] := by
      simp [ConcJobQueue.Size, PriorityQueue.Len] at hs; exact hs
    simp [ConcJobQueue.dequeueAll, ConcJobQueue.Size, PriorityQueue.Len, this]
  | succ fuel ih =>
    intro jq h hs
    rcases Nat.eq_zero_or_pos jq.pq.length with h0 | h0
    · have hnil : jq.pq = [] := List.length_eq_zero.mp h0
      simp [ConcJobQueue.dequeueAll, Dequeue_empty jq h0, ConcJobQueue.Size, PriorityQueue.Len,
        hnil]
    · obtain ⟨e, r, jq1, h1, h2, h3, h4, h5, h6, h7⟩ := Dequeue_spec jq h h0
      obtain ⟨g1, g2, g3, g4⟩ := ih jq1 h4 (by omega)
      simp only [ConcJobQueue.dequeueAll, h3]
      refine ⟨g1, ?_, ?_, ?_⟩
      · simp only [List.map_cons]
        exact ((g2.cons r.payload)).trans h6.symm
      · refine List.Pairwise.cons ?_ g3
        intro b hb
        have hb1 : b.payload ∈ jq.pq.map Job.payload := by
          apply h6.symm.subset
          apply List.mem_cons_of_mem
          exact g2.subset (List.mem_map_of_mem _ hb)
        obtain ⟨a, ha, hab⟩ := List.mem_map.mp hb1
        have hp : a.Priority = b.Priority := congrArg Prod.fst hab
        rw [← hp]
        exact h7 a ha
      · intro x hx
        rcases List.mem_cons.mp hx with hx | hx
        · rw [hx, h2]
        · exact g4 x hx

/-- C1: after any sequence of Enqueue and Dequeue calls on a queue created by NewConcJobQueue
that leaves the queue non-empty, the next Dequeue returns an entry whose Priority is at least
the Priority of every queued entry, and that entry is one of the queued entries (with its
position field reset to -1). -/
theorem dequeue_returns_max_priority (ops : List QueueOp)
    (hne : (NewConcJobQueue.run ops).IsEmpty = false) :
    ∃ (r : Job) (jq1 : ConcJobQueue), (NewConcJobQueue.run ops).Dequeue = (some r, jq1) ∧
      (∀ e ∈ (NewConcJobQueue.run ops).pq, e.Priority ≤ r.Priority) ∧
      (∃ e ∈ (NewConcJobQueue.run ops).pq, r = { e with Posn := -1 }) := by
  have hinv := run_QueueInv ops NewConcJobQueue QueueInv_nil
  have hpos : 0 < (NewConcJobQueue.run ops).pq.length := by
    simp only [ConcJobQueue.IsEmpty, ConcJobQueue.Size, PriorityQueue.Len,
      decide_eq_false_iff_not] at hne
    omega
  obtain ⟨e, r, jq1, h1, h2, h3, _, _, _, h7⟩ := Dequeue_spec _ hinv hpos
  exact ⟨r, jq1, h3, h7, e, List.getElem?_mem h1, h2⟩

/-- C1 on `scenarioOps`: two entries are left queued and the next Dequeue returns the
greater one. -/
theorem dequeue_returns_max_priority_witness :
    (NewConcJobQueue.run scenarioOps).IsEmpty = false ∧
    ∃ (r : Job) (jq1 : ConcJobQueue), (NewConcJobQueue.run scenarioOps).Dequeue = (some r, jq1) ∧
      (∀ e ∈ (NewConcJobQueue.run scenarioOps).pq, e.Priority ≤ r.Priority) ∧
      (∃ e ∈ (NewConcJobQueue.run scenarioOps).pq, r = { e with Posn := -1 }) :=
  ⟨by decide, dequeue_returns_max_priority scenarioOps (by decide)⟩

/-- C2: for every interleaving of N Enqueue and M Dequeue calls on a fresh queue in which no
Dequeue is issued on an empty queue, M ≤ N, Size() returns N − M afterwards, and IsEmpty()
returns true exactly when Size() returns 0. -/
theorem size_is_enqueues_minus_dequeues (ops : List QueueOp)
    (hok : NewConcJobQueue.neverDequeuesEmpty ops = true) :
    countDequeue ops ≤ countEnqueue ops ∧
    (NewConcJobQueue.run ops).Size = countEnqueue ops - countDequeue ops ∧
    ((NewConcJobQueue.run ops).IsEmpty = true ↔ (NewConcJobQueue.run ops).Size = 0) := by
  have h := run_size ops NewConcJobQueue QueueInv_nil hok
  have h0 : NewConcJobQueue.Size = 0 := rfl
  refine ⟨by omega, by omega, ?_⟩
  simp [ConcJobQueue.IsEmpty]

/-- C2 on `scenarioOps`: three Enqueue calls and one Dequeue call leave two entries. -/
theorem size_is_enqueues_minus_dequeues_witness :
    NewConcJobQueue.neverDequeuesEmpty scenarioOps = true ∧
    countDequeue scenarioOps ≤ countEnqueue scenarioOps ∧
    (NewConcJobQueue.run scenarioOps).Size = countEnqueue scenarioOps - countDequeue scenarioOps ∧
    ((NewConcJobQueue.run scenarioOps).IsEmpty = true ↔ (NewConcJobQueue.run scenarioOps).Size = 0) :=
  ⟨by decide, size_is_enqueues_minus_dequeues scenarioOps (by decide)⟩

/-- C3: for every list of jobs enqueued into a fresh queue and then dequeued until the queue is
empty (any number of Dequeue attempts that is at least the number of jobs), the queue ends
empty, the dequeued entries are a permutation of the enqueued ones, and their priorities come
out in non-increasing order; and enqueuing A(5), B(1), C(10) in that order yields C, A, B. -/
theorem dequeue_order_is_priority_order :
    (∀ (jobs : List (String × Int × SpecValue)) (fuel : Nat), jobs.length ≤ fuel →
      ((NewConcJobQueue.enqueueAll jobs).dequeueAll fuel).2.IsEmpty = true ∧
      List.Perm (((NewConcJobQueue.enqueueAll jobs).dequeueAll fuel).1.map Job.payload)
        (jobs.map entryPayload) ∧
      List.Pairwise (fun a b : Job => b.Priority ≤ a.Priority)
        ((NewConcJobQueue.enqueueAll jobs).dequeueAll fuel).1) ∧
    ((NewConcJobQueue.enqueueAll scenarioJobs).dequeueAll 3).1.map Job.payload =
      [(10, .jobSpec (scenarioSpec "C" 10), "id-C"), (5, .jobSpec (scenarioSpec "A" 5), "id-A"),
       (1, .jobSpec (scenarioSpec "B" 1), "id-B")] := by
  refine ⟨?_, by decide⟩
  intro jobs fuel hfuel
  obtain ⟨h1, h2, h3⟩ := enqueueAll_spec jobs NewConcJobQueue QueueInv_nil
  have h0 : NewConcJobQueue.Size = 0 := rfl
  obtain ⟨g1, g2, g3, _⟩ := dequeueAll_spec fuel _ h1 (by omega)
  refine ⟨by simp [ConcJobQueue.IsEmpty, g1], ?_, g3⟩
  refine g2.trans (h3.trans ?_)
  simp [NewConcJobQueue_pq]

/-- C3 on `scenarioJobs` with five Dequeue attempts. -/
theorem dequeue_order_is_priority_order_witness :
    scenarioJobs.length ≤ 5 ∧
    ((NewConcJobQueue.enqueueAll scenarioJobs).dequeueAll 5).2.IsEmpty = true ∧
    List.Perm (((NewConcJobQueue.enqueueAll scenarioJobs).dequeueAll 5).1.map Job.payload)
      (scenarioJobs.map entryPayload) ∧
    List.Pairwise (fun a b : Job => b.Priority ≤ a.Priority)
      ((NewConcJobQueue.enqueueAll scenarioJobs).dequeueAll 5).1 :=
  ⟨by decide, dequeue_order_is_priority_order.1 scenarioJobs 5 (by decide)⟩

/-- C4: after every sequence of Enqueue and Dequeue calls starting from the empty queue, every
entry stored at position i of the backing slice has Posn = i, and an entry returned by
Dequeue has Posn = -1. -/
theorem posn_matches_index (ops : List QueueOp) :
    (∀ (i : Nat) (e : Job), (NewConcJobQueue.run ops).pq[i]? = some e → e.Posn = (i : Int)) ∧
    (∀ r : Job, (NewConcJobQueue.run ops).Dequeue.1 = some r → r.Posn = -1) := by
  have hinv := run_QueueInv ops NewConcJobQueue QueueInv_nil
  refine ⟨hinv.2, ?_⟩
  intro r hr
  rcases Nat.eq_zero_or_pos (NewConcJobQueue.run ops).pq.length with h0 | h0
  · rw [Dequeue_empty _ h0] at hr; cases hr
  · obtain ⟨e, r1, jq1, _, h2, h3, _⟩ := Dequeue_spec _ hinv h0
    rw [h3] at hr
    cases hr
    rw [h2]

/-- C4 on `scenarioOps`: the entry stored at index 1 records position 1. -/
theorem posn_matches_index_witness :
    (NewConcJobQueue.run scenarioOps).pq[1]? =
      some { Priority := 1, Spec := .jobSpec (scenarioSpec "B" 1), ID := "id-B", Posn := 1 } ∧
    ({ Priority := 1, Spec := .jobSpec (scenarioSpec "B" 1), ID := "id-B", Posn := 1 } : Job).Posn
      = ((1 : Nat) : Int) :=
  ⟨by decide, (posn_matches_index scenarioOps).1 1 _ (by decide)⟩

/-! ## The dispatcher: lemmas and properties -/

theorem recordPending_error (h h1 : JobHandler) (body : Except String JobSpec) (jobID : String)
    (resp : Response) (e : h.recordPending body jobID = (.error resp, h1)) : h1 = h := by
  unfold JobHandler.recordPending at e
  split at e
  · cases e; rfl
  · split at e
    · cases e; rfl
    · cases e

theorem recordPending_ok (h h1 : JobHandler) (body : Except String JobSpec) (jobID : String)
    (spec : JobSpec) (e : h.recordPending body jobID = (.ok spec, h1)) :
    ∃ d : JobSpec, body = .ok d ∧ d.Name ≠ "" ∧ spec = { d with ID := jobID } ∧
      h1 = { h with pendingJobs := h.pendingJobs.insert d.Name spec } := by
  unfold JobHandler.recordPending at e
  split at e
  · cases e
  · rename_i d
    split at e
    · cases e
    · rename_i hn
      cases e
      exact ⟨d, rfl, hn, rfl, rfl⟩

theorem step_sound (s s1 : Sys) (a : Action) (h : s.step a = some s1) : Step s a s1 := by
  unfold Sys.step at h
  split at h
  · cases h
  · rename_i hc
    have hc : s.crashed = false := by simpa using hc
    cases a <;> simp only [] at h
    case start =>
      split at h
      · cases h; exact Step.start s hc (by assumption)
      · cases h
    case cancel => cases h; exact Step.cancel s hc
    case shutdown =>
      split at h
      · cases h; exact Step.shutdownTwice s hc (by assumption)
      · cases h; exact Step.shutdown s hc (by simpa using ‹¬ s.h.shutdownCh = true›)
    case submit body jobID =>
      split at h
      · rename_i e
        cases h
        have := recordPending_error _ _ _ _ _ e
        subst this
        exact Step.submitRejected s body jobID _ hc e
      · rename_i e
        cases h
        obtain ⟨d, rfl, hn, rfl, rfl⟩ := recordPending_ok _ _ _ _ _ e
        exact Step.submitRecorded s d jobID hc hn
    case submitEnqueue k =>
      split at h
      · cases h
      · rename_i spec hk
        cases h
        exact Step.submitEnqueue s k spec hc hk
    case loopStopShutdown =>
      split at h
      · rename_i hh; cases h; exact Step.loopStopShutdown s hc hh.1 hh.2
      · cases h
    case loopStopCtx =>
      split at h
      · rename_i hh; cases h; exact Step.loopStopCtx s hc hh.1 hh.2
      · cases h
    case loopStopDefault =>
      split at h
      · rename_i hh; cases h
        exact Step.loopStopDefault s hc hh.1 (by simpa using hh.2.1) (by simpa using hh.2.2)
      · cases h
    case loopCheckEmpty =>
      split at h
      · rename_i hl
        split at h
        · cases h; exact Step.loopCheckEmptyYes s hc hl (by assumption)
        · cases h; exact Step.loopCheckEmptyNo s hc hl (by simpa using ‹¬ s.h.jobQueue.IsEmpty = true›)
      · cases h
    case loopAcquire =>
      split at h
      · rename_i hh; cases h; exact Step.loopAcquire s hc hh.1 hh.2
      · cases h
    case loopSlotShutdown =>
      split at h
      · rename_i hh; cases h; exact Step.loopSlotShutdown s hc hh.1 hh.2
      · cases h
    case loopSlotCtx =>
      split at h
      · rename_i hh; cases h; exact Step.loopSlotCtx s hc hh.1 hh.2
      · cases h
    case loopDequeue =>
      split at h
      · rename_i hl; cases h; exact Step.loopDequeue s hc hl
      · cases h
    case loopMove =>
      split at h
      · rename_i hl
        split at h
        · rename_i hlock; cases h; exact Step.loopMoveNil s hc hl hlock
        · cases h
      · rename_i job hl
        split at h
        · rename_i tn hspec
          split at h
          · rename_i hlock; cases h; exact Step.loopMoveBadType s job tn hc hl hspec hlock
          · cases h
        · rename_i spec hspec
          cases h
          exact Step.loopMove s job spec hc hl hspec
      · cases h
    case loopLaunch =>
      split at h
      · rename_i spec hl; cases h; exact Step.loopLaunch s spec hc hl
      · cases h
    case loopDrain =>
      split at h
      · rename_i hh; cases h; exact Step.loopDrain s hc hh.1 hh.2
      · cases h
    case loopStartDefer =>
      split at h
      · rename_i hl; cases h; exact Step.loopStartDefer s hc hl
      · cases h
    case taskBackend i o =>
      split at h
      · rename_i t ht
        split at h
        · rename_i hpc; cases h; exact Step.taskBackend s i o t hc ht hpc
        · cases h
      · cases h
    case taskRelease i =>
      split at h
      · rename_i t ht
        split at h
        · rename_i hh; cases h; exact Step.taskRelease s i t hc ht hh.1 hh.2
        · cases h
      · cases h
    case taskRemove i =>
      split at h
      · rename_i t ht
        split at h
        · rename_i hpc; cases h; exact Step.taskRemove s i t hc ht hpc
        · cases h
      · cases h
    case taskDone i =>
      split at h
      · rename_i t ht
        split at h
        · rename_i hpc; cases h; exact Step.taskDone s i t hc ht hpc
        · cases h
      · cases h

theorem countP_set_task (p : Task → Bool) : ∀ (l : List Task) (i : Nat) (t t1 : Task),
    l[i]? = some t →
    (l.set i t1).countP p + (if p t then 1 else 0) = l.countP p + (if p t1 then 1 else 0) := by
  intro l
  induction l with
  | nil => intro i t t1 h; simp at h
  | cons x xs ih =>
    intro i t t1 h
    cases i with
    | zero =>
      simp at h
      subst h
      simp only [List.set_cons_zero, List.countP_cons]
      omega
    | succ i =>
      simp at h
      have := ih i t t1 h
      simp only [List.set_cons_succ, List.countP_cons]
      omega

theorem Step_cap (s s1 : Sys) (a : Action) (h : Step s a s1) :
    s1.h.concurrencyCap = s.h.concurrencyCap := by
  cases h <;> first | rfl | (simp only [Sys.closeDone]; split <;> rfl)

theorem Step_SlotInv (s s1 : Sys) (a : Action) (hinv : SlotInv s) (h : Step s a s1) :
    SlotInv s1 := by
  obtain ⟨h1, h2⟩ := hinv
  simp only [Sys.activeTasks, Sys.loopHoldsSlot] at h1
  cases h
  case taskBackend i o t hc ht hpc =>
    have := countP_set_task Task.holdsSlot s.tasks i t { t with pc := .release } ht
    simp [Task.holdsSlot, hpc] at this
    simp only [SlotInv, Sys.activeTasks, Sys.loopHoldsSlot, Sys.setTask]
    omega
  case taskRelease i t hc ht hpc hlock =>
    have := countP_set_task Task.holdsSlot s.tasks i t { t with pc := .remove } ht
    simp [Task.holdsSlot, hpc] at this
    simp only [SlotInv, Sys.activeTasks, Sys.loopHoldsSlot, Sys.setTask]
    omega
  case taskRemove i t hc ht hpc =>
    have := countP_set_task Task.holdsSlot s.tasks i t { t with pc := .wgDone } ht
    simp [Task.holdsSlot, hpc] at this
    simp only [SlotInv, Sys.activeTasks, Sys.loopHoldsSlot, Sys.setTask]
    omega
  case taskDone i t hc ht hpc =>
    have := countP_set_task Task.holdsSlot s.tasks i t { t with pc := .finished } ht
    simp [Task.holdsSlot, hpc] at this
    simp only [SlotInv, Sys.activeTasks, Sys.loopHoldsSlot, Sys.setTask]
    omega
  case loopDrain hc hl hwg =>
    simp only [SlotInv, Sys.activeTasks, Sys.loopHoldsSlot, Sys.closeDone]
    split <;> simp_all
  case loopStartDefer hc hl =>
    simp only [SlotInv, Sys.activeTasks, Sys.loopHoldsSlot, Sys.closeDone]
    split <;> simp_all
  all_goals
    simp_all [SlotInv, Sys.activeTasks, Sys.loopHoldsSlot, Sys.goto, JobHandler.enqueuePending,
      Task.holdsSlot]
    try omega

theorem keys_delete_count (t : JobTable) (k n : String) :
    (t.delete k).keys.count n = if k = n then 0 else t.keys.count n := by
  induction t with
  | nil => simp [JobTable.delete, JobTable.keys]
  | cons e t ih =>
    simp only [JobTable.delete, JobTable.keys] at ih ⊢
    simp only [List.filter_cons]
    by_cases h : e.1 = k
    · simp only [h, beq_self_eq_true, Bool.not_true, Bool.false_eq_true, ↓reduceIte, ih,
        List.map_cons, List.count_cons]
      split_ifs <;> simp_all
    · simp only [beq_iff_eq, h, not_false_eq_true, decide_True, Bool.not_eq_true',
        beq_eq_false_iff_ne, ne_eq, ↓reduceIte, List.map_cons, List.count_cons, ih]
      split_ifs <;> simp_all

theorem keys_insert_count (t : JobTable) (k n : String) (v : JobSpec) :
    (t.insert k v).keys.count n = (if k = n then 1 else 0) + (if k = n then 0 else t.keys.count n) := by
  have := keys_delete_count t k n
  simp only [JobTable.insert, JobTable.keys, List.map_cons, List.count_cons] at this ⊢
  rw [this]
  split_ifs <;> simp_all

theorem taskNames_set (l : List Task) : ∀ (i : Nat) (t t1 : Task) (n : String), l[i]? = some t →
    (((l.set i t1).filter Task.inRunning).map (fun t => t.spec.Name)).count n +
      (if t.inRunning = true ∧ t.spec.Name = n then 1 else 0) =
    ((l.filter Task.inRunning).map (fun t => t.spec.Name)).count n +
      (if t1.inRunning = true ∧ t1.spec.Name = n then 1 else 0) := by
  induction l with
  | nil => intro i t t1 n h; simp at h
  | cons x xs ih =>
    intro i t t1 n h
    cases i with
    | zero =>
      simp at h
      subst h
      simp only [List.set_cons_zero, List.filter_cons]
      split_ifs <;> simp_all [List.count_cons]
    | succ i =>
      simp at h
      have := ih i t t1 n h
      simp only [List.set_cons_succ, List.filter_cons]
      split_ifs <;> simp_all [List.count_cons] <;> omega

theorem names_eraseIdx (l : List JobSpec) : ∀ (k : Nat) (x : JobSpec) (n : String), l[k]? = some x →
    ((l.eraseIdx k).map (fun spec => spec.Name)).count n + (if x.Name = n then 1 else 0) =
    (l.map (fun spec => spec.Name)).count n := by
  induction l with
  | nil => intro k x n h; simp at h
  | cons y ys ih =>
    intro k x n h
    cases k with
    | zero =>
      simp at h
      subst h
      simp [List.count_cons]
    | succ k =>
      simp at h
      have := ih k x n h
      simp only [List.eraseIdx_cons_succ, List.map_cons, List.count_cons]
      omega

theorem filterMap_name_payload (pq : PriorityQueue) :
    pq.filterMap Job.name? = (pq.map Job.payload).filterMap payloadName? := by
  rw [List.filterMap_map]
  rfl

theorem names_enqueue (jq : ConcJobQueue) (spec : JobSpec) (n : String) (h : QueueInv jq.pq) :
    ((jq.Enqueue spec.ID spec.Priority (.jobSpec spec)).2.pq.filterMap Job.name?).count n =
      (if spec.Name = n then 1 else 0) + (jq.pq.filterMap Job.name?).count n := by
  have hp := (Enqueue_spec jq spec.ID spec.Priority (.jobSpec spec) h).2.2
  rw [filterMap_name_payload, filterMap_name_payload, (hp.filterMap payloadName?).count_eq]
  simp [payloadName?, List.count_cons]
  omega

theorem names_dequeue (jq : ConcJobQueue) (n : String) (h : QueueInv jq.pq) :
    (jq.pq.filterMap Job.name?).count n =
      (match jq.Dequeue.1 with
        | some job => job.name?.toList
        | none => []).count n + (jq.Dequeue.2.pq.filterMap Job.name?).count n := by
  rcases Nat.eq_zero_or_pos jq.pq.length with h0 | h0
  · rw [Dequeue_empty jq h0]; simp
  · obtain ⟨e, r, jq1, _, _, h3, _, _, h6, _⟩ := Dequeue_spec jq h h0
    rw [h3]
    simp only
    rw [filterMap_name_payload, filterMap_name_payload, (h6.filterMap payloadName?).count_eq]
    simp only [List.filterMap_cons]
    have : payloadName? r.payload = r.name? := rfl
    rw [this]
    cases r.name? <;> simp [List.count_cons]
    omega

theorem Dequeue_QueueInv (jq : ConcJobQueue) (h : QueueInv jq.pq) : QueueInv jq.Dequeue.2.pq :=
  applyOp_QueueInv jq .dequeue h

theorem Step_NameInv (s s1 : Sys) (a : Action) (subm : List String) (hinv : NameInv s subm)
    (hfresh : ∀ n, a.submittedName? = some n → subm.count n = 0) (h : Step s a s1) :
    NameInv s1 (subm ++ a.submittedName?.toList) := by
  obtain ⟨hq, hn⟩ := hinv
  cases h
  case submitRecorded d jobID hc hname =>
    refine ⟨hq, ?_⟩
    intro n
    obtain ⟨i1, i2, i3, i4⟩ := hn n
    have hf := hfresh d.Name (by simp [Action.submittedName?, hname])
    have j2 := (hn d.Name).2.1
    simp only [Sys.pendSide, Sys.runSide] at i1 i2 i3 i4 j2 ⊢
    simp only [Action.submittedName?, hname, ↓reduceIte, Option.toList, List.count_append,
      List.map_append, List.map_cons, List.map_nil, List.count_cons, List.count_nil,
      keys_insert_count, beq_iff_eq] at i1 i2 i3 i4 j2 ⊢
    split_ifs <;> (try subst_vars) <;> omega
  case submitRejected body jobID resp hc hr =>
    have hnone : (Action.submit body jobID).submittedName? = none := by
      cases body with
      | error e => rfl
      | ok d =>
        by_cases hname : d.Name = ""
        · simp [Action.submittedName?, hname]
        · simp [JobHandler.recordPending, hname] at hr
    rw [hnone]
    simp only [Option.toList, List.append_nil]
    exact ⟨hq, hn⟩
  case submitEnqueue k spec hc hk =>
    refine ⟨(Enqueue_spec _ _ _ _ hq).1, ?_⟩
    intro n
    obtain ⟨i1, i2, i3, i4⟩ := hn n
    have e1 := names_eraseIdx s.inflight k spec n hk
    have e2 := names_enqueue s.h.jobQueue spec n hq
    simp only [Sys.pendSide, Sys.runSide] at i1 i2 i3 i4 ⊢
    simp only [Action.submittedName?, Option.toList, List.append_nil, JobHandler.enqueuePending,
      List.count_append] at i1 i2 i3 i4 e1 e2 ⊢
    split_ifs at e1 e2 <;> omega
  case loopDequeue hc hl =>
    refine ⟨Dequeue_QueueInv _ hq, ?_⟩
    intro n
    obtain ⟨i1, i2, i3, i4⟩ := hn n
    have e1 := names_dequeue s.h.jobQueue n hq
    simp only [Sys.pendSide, Sys.runSide, hl] at i1 i2 i3 i4 ⊢
    simp only [Action.submittedName?, Option.toList, List.append_nil,
      List.count_append, List.count_nil] at i1 i2 i3 i4 e1 ⊢
    cases hd : s.h.jobQueue.Dequeue.1 <;> simp only [hd] at e1 ⊢ <;>
      (try simp only [List.count_nil] at e1 ⊢) <;> omega
  case loopMove job spec hc hl hspec =>
    refine ⟨hq, ?_⟩
    intro n
    obtain ⟨i1, i2, i3, i4⟩ := hn n
    have hnm : job.name? = some spec.Name := by simp [Job.name?, hspec]
    simp only [Sys.pendSide, Sys.runSide, hl, hnm] at i1 i2 i3 i4 ⊢
    simp only [Action.submittedName?, Option.toList, List.append_nil, List.count_append,
      List.count_cons, List.count_nil, keys_insert_count, keys_delete_count,
      beq_iff_eq] at i1 i2 i3 i4 ⊢
    split_ifs at i1 i2 i3 i4 ⊢ <;> omega
  case loopLaunch spec hc hl =>
    refine ⟨hq, ?_⟩
    intro n
    obtain ⟨i1, i2, i3, i4⟩ := hn n
    simp only [Sys.pendSide, Sys.runSide, hl] at i1 i2 i3 i4 ⊢
    simp only [Action.submittedName?, Option.toList, List.append_nil, List.count_append,
      List.count_cons, List.count_nil, List.filter_append, List.map_append, List.filter_cons,
      List.filter_nil, Task.inRunning, ↓reduceIte, List.map_cons, List.map_nil,
      beq_iff_eq] at i1 i2 i3 i4 ⊢
    split_ifs at i1 i2 i3 i4 ⊢ <;> omega
  case taskBackend i o t hc ht hpc =>
    refine ⟨hq, ?_⟩
    intro n
    obtain ⟨i1, i2, i3, i4⟩ := hn n
    have e1 := taskNames_set s.tasks i t { t with pc := .release } n ht
    have r1 : t.inRunning = true := by simp [Task.inRunning, hpc]
    have r2 : ({ t with pc := .release } : Task).inRunning = true := rfl
    simp only [r1, r2, true_and, false_and, Bool.false_eq_true, if_false] at e1
    simp only [Sys.pendSide, Sys.runSide, Sys.setTask] at i1 i2 i3 i4 ⊢
    simp only [Action.submittedName?, Option.toList, List.append_nil, List.count_append]
      at i1 i2 i3 i4 ⊢
    omega
  case taskRelease i t hc ht hpc hlock =>
    refine ⟨hq, ?_⟩
    intro n
    obtain ⟨i1, i2, i3, i4⟩ := hn n
    have e1 := taskNames_set s.tasks i t { t with pc := .remove } n ht
    have r1 : t.inRunning = true := by simp [Task.inRunning, hpc]
    have r2 : ({ t with pc := .remove } : Task).inRunning = true := rfl
    simp only [r1, r2, true_and, false_and, Bool.false_eq_true, if_false] at e1
    simp only [Sys.pendSide, Sys.runSide, Sys.setTask] at i1 i2 i3 i4 ⊢
    simp only [Action.submittedName?, Option.toList, List.append_nil, List.count_append]
      at i1 i2 i3 i4 ⊢
    omega
  case taskRemove i t hc ht hpc =>
    refine ⟨hq, ?_⟩
    intro n
    obtain ⟨i1, i2, i3, i4⟩ := hn n
    have e1 := taskNames_set s.tasks i t { t with pc := .wgDone } n ht
    have r1 : t.inRunning = true := by simp [Task.inRunning, hpc]
    have r2 : ({ t with pc := .wgDone } : Task).inRunning = false := rfl
    simp only [r1, r2, true_and, false_and, Bool.false_eq_true, if_false] at e1
    simp only [Sys.pendSide, Sys.runSide, Sys.setTask] at i1 i2 i3 i4 ⊢
    simp only [Action.submittedName?, Option.toList, List.append_nil, List.count_append,
      keys_delete_count] at i1 i2 i3 i4 ⊢
    (try split_ifs at e1 ⊢) <;> omega
  case taskDone i t hc ht hpc =>
    refine ⟨hq, ?_⟩
    intro n
    obtain ⟨i1, i2, i3, i4⟩ := hn n
    have e1 := taskNames_set s.tasks i t { t with pc := .finished } n ht
    have r1 : t.inRunning = false := by simp [Task.inRunning, hpc]
    have r2 : ({ t with pc := .finished } : Task).inRunning = false := rfl
    simp only [r1, r2, true_and, false_and, Bool.false_eq_true, if_false] at e1
    simp only [Sys.pendSide, Sys.runSide, Sys.setTask] at i1 i2 i3 i4 ⊢
    simp only [Action.submittedName?, Option.toList, List.append_nil, List.count_append]
      at i1 i2 i3 i4 ⊢
    omega
  case loopMoveBadType job tn hc hl hspec hlock =>
    refine ⟨hq, ?_⟩
    intro n
    obtain ⟨i1, i2, i3, i4⟩ := hn n
    have hnm : job.name? = none := by simp [Job.name?, hspec]
    simp only [Sys.pendSide, Sys.runSide, hl, hnm] at i1 i2 i3 i4 ⊢
    simp only [Action.submittedName?, Option.toList, List.append_nil] at i1 i2 i3 i4 ⊢
    exact ⟨i1, i2, i3, i4⟩
  case loopDrain hc hl hwg =>
    refine ⟨by simp only [Sys.closeDone]; split <;> exact hq, ?_⟩
    intro n
    obtain ⟨i1, i2, i3, i4⟩ := hn n
    simp only [Sys.pendSide, Sys.runSide, hl, List.append_nil] at i1 i2 i3 i4
    simp only [Sys.closeDone]
    split <;> simp only [Sys.pendSide, Sys.runSide, hl] <;>
      simp only [Action.submittedName?, Option.toList, List.append_nil] <;>
      exact ⟨i1, i2, i3, i4⟩
  case loopStartDefer hc hl =>
    refine ⟨by simp only [Sys.closeDone]; split <;> exact hq, ?_⟩
    intro n
    obtain ⟨i1, i2, i3, i4⟩ := hn n
    simp only [Sys.pendSide, Sys.runSide, hl, List.append_nil] at i1 i2 i3 i4
    simp only [Sys.closeDone]
    split <;> simp only [Sys.pendSide, Sys.runSide, hl] <;>
      simp only [Action.submittedName?, Option.toList, List.append_nil] <;>
      exact ⟨i1, i2, i3, i4⟩
  all_goals
    refine ⟨hq, ?_⟩
    intro n
    obtain ⟨i1, i2, i3, i4⟩ := hn n
    simp only [Sys.pendSide, Sys.runSide, Sys.goto] at i1 i2 i3 i4 ⊢
    simp_all [Action.submittedName?]

theorem JobProcessor_some (N : Int) (h : JobHandler) (e : JobProcessor N = some h) :
    0 ≤ N ∧ h = ⟨NewConcJobQueue, N.toNat, 0, [], [], false, false, 0⟩ := by
  unfold JobProcessor at e
  split at e
  · cases e
  · cases e
    exact ⟨by omega, rfl⟩

theorem fresh_SlotInv (N : Int) (h : JobHandler) (e : JobProcessor N = some h) :
    SlotInv (Sys.fresh h) := by
  obtain ⟨_, rfl⟩ := JobProcessor_some N h e
  simp [SlotInv, Sys.fresh, Sys.activeTasks, Sys.loopHoldsSlot]

theorem fresh_NameInv (N : Int) (h : JobHandler) (e : JobProcessor N = some h) :
    NameInv (Sys.fresh h) [] := by
  obtain ⟨_, rfl⟩ := JobProcessor_some N h e
  refine ⟨QueueInv_nil, ?_⟩
  intro n
  simp [Sys.fresh, Sys.pendSide, Sys.runSide, NewConcJobQueue_pq, JobTable.keys]

theorem run_cons (s : Sys) (a : Action) (rest : List Action) (s1 : Sys)
    (h : s.run (a :: rest) = some s1) : ∃ s0, s.step a = some s0 ∧ s0.run rest = some s1 := by
  simp only [Sys.run] at h
  split at h
  · cases h
  · rename_i s0 hs
    exact ⟨s0, hs, h⟩

theorem run_SlotInv : ∀ (acts : List Action) (s s1 : Sys), SlotInv s → s.run acts = some s1 →
    SlotInv s1 ∧ s1.h.concurrencyCap = s.h.concurrencyCap := by
  intro acts
  induction acts with
  | nil =>
    intro s s1 hinv h
    simp only [Sys.run] at h
    cases h
    exact ⟨hinv, rfl⟩
  | cons a rest ih =>
    intro s s1 hinv h
    obtain ⟨s0, h0, h1⟩ := run_cons s a rest s1 h
    have hstep := step_sound s s0 a h0
    obtain ⟨g1, g2⟩ := ih s0 s1 (Step_SlotInv s s0 a hinv hstep) h1
    exact ⟨g1, g2.trans (Step_cap s s0 a hstep)⟩

theorem run_NameInv : ∀ (acts : List Action) (s s1 : Sys) (subm : List String),
    NameInv s subm → (subm ++ submittedNames acts).Nodup → s.run acts = some s1 →
    NameInv s1 (subm ++ submittedNames acts) := by
  intro acts
  induction acts with
  | nil =>
    intro s s1 subm hinv _ h
    simp only [Sys.run] at h
    cases h
    simpa [submittedNames] using hinv
  | cons a rest ih =>
    intro s s1 subm hinv hnd h
    obtain ⟨s0, h0, h1⟩ := run_cons s a rest s1 h
    have hstep := step_sound s s0 a h0
    have hsplit : subm ++ submittedNames (a :: rest) =
        (subm ++ a.submittedName?.toList) ++ submittedNames rest := by
      simp only [submittedNames, List.filterMap_cons]
      cases a.submittedName? <;> simp
    rw [hsplit] at hnd ⊢
    have hfresh : ∀ n, a.submittedName? = some n → subm.count n = 0 := by
      intro n hn
      rw [hn] at hnd
      simp only [Option.toList] at hnd
      have h2 : (subm ++ [n]).Nodup := (List.nodup_append.mp hnd).1
      have h3 := (List.nodup_append.mp h2).2.2
      apply List.count_eq_zero_of_not_mem
      intro hm
      exact h3 hm (List.mem_singleton_self n)
    exact ih s0 s1 _ (Step_NameInv s s0 a subm hinv hfresh hstep) hnd h1

/-- C5: in every dispatcher state, a submission whose decoded job name is empty is
rejected with HTTP 400 and leaves the handler, hence the queue size, the pending table
and the running table, exactly as it was. -/
theorem empty_name_rejected (h : JobHandler) (decoded : JobSpec) (jobID : String)
    (hname : decoded.Name = "") :
    (h.JobSubmissionHandler (.ok decoded) jobID).1.status = 400 ∧
    (h.JobSubmissionHandler (.ok decoded) jobID).2 = h ∧
    (h.JobSubmissionHandler (.ok decoded) jobID).2.jobQueue.Size = h.jobQueue.Size ∧
    (h.JobSubmissionHandler (.ok decoded) jobID).2.pendingJobs = h.pendingJobs ∧
    (h.JobSubmissionHandler (.ok decoded) jobID).2.runningJobs = h.runningJobs := by
  have e : h.JobSubmissionHandler (.ok decoded) jobID =
      (.badRequest "Job name is required", h) := by
    simp [JobHandler.JobSubmissionHandler, JobHandler.recordPending, hname]
  rw [e]
  exact ⟨rfl, rfl, rfl, rfl, rfl⟩

/-- C5 on `scenarioHandler` and a submission with an empty name. -/
theorem empty_name_rejected_witness :
    (scenarioSpec "" 3).Name = "" ∧
    (scenarioHandler.JobSubmissionHandler (.ok (scenarioSpec "" 3)) "u1").1.status = 400 ∧
    (scenarioHandler.JobSubmissionHandler (.ok (scenarioSpec "" 3)) "u1").2 = scenarioHandler ∧
    (scenarioHandler.JobSubmissionHandler (.ok (scenarioSpec "" 3)) "u1").2.jobQueue.Size =
      scenarioHandler.jobQueue.Size ∧
    (scenarioHandler.JobSubmissionHandler (.ok (scenarioSpec "" 3)) "u1").2.pendingJobs =
      scenarioHandler.pendingJobs ∧
    (scenarioHandler.JobSubmissionHandler (.ok (scenarioSpec "" 3)) "u1").2.runningJobs =
      scenarioHandler.runningJobs :=
  ⟨rfl, empty_name_rejected scenarioHandler (scenarioSpec "" 3) "u1" rfl⟩

/-- C6, as stated, fails: with capacity 1, submit "x", let the control loop move it to the
running table, and submit "x" again; "x" is then a key of both tables. -/
theorem pending_running_overlap :
    ∃ s : Sys, Sys.runFresh 1 duplicateNameTrace = some s ∧
      "x" ∈ s.h.pendingJobs.keys ∧ "x" ∈ s.h.runningJobs.keys := by
  refine ⟨_, rfl, ?_, ?_⟩ <;> decide

theorem Step_DisjInv (s s1 : Sys) (a : Action) (hinv : DisjInv s)
    (hfresh : ∀ n, a.submittedName? = some n → s.h.runningJobs.keys.count n = 0)
    (h : Step s a s1) : DisjInv s1 := by
  cases h
  case submitRecorded d jobID hc hname =>
    intro n
    have hf := hfresh d.Name (by simp [Action.submittedName?, hname])
    have i := hinv n
    simp only [keys_insert_count]
    split_ifs with e
    · subst e; exact Or.inr hf
    · omega
  case loopMove job spec hc hl hspec =>
    intro n
    have i := hinv n
    simp only [keys_insert_count, keys_delete_count]
    split_ifs with e <;> omega
  case taskRemove i t hc ht hpc =>
    intro n
    have i := hinv n
    simp only [Sys.setTask, keys_delete_count]
    split_ifs with e <;> omega
  case loopDrain hc hl hwg =>
    intro n
    simp only [Sys.closeDone]
    split <;> exact hinv n
  case loopStartDefer hc hl =>
    intro n
    simp only [Sys.closeDone]
    split <;> exact hinv n
  all_goals exact hinv

theorem submitsOutside_cons (avoid : Sys → List String) (s s0 : Sys) (a : Action)
    (rest : List Action) (hs : s.step a = some s0)
    (h : s.submitsOutside avoid (a :: rest) = true) :
    (∀ n, a.submittedName? = some n → n ∉ avoid s) ∧ s0.submitsOutside avoid rest = true := by
  simp only [Sys.submitsOutside, hs, Bool.and_eq_true] at h
  refine ⟨?_, h.2⟩
  intro n hn
  have h1 := h.1
  simp only [hn, Bool.not_eq_true', List.contains_eq_any_beq, List.any_eq_false, beq_iff_eq] at h1
  intro hm
  exact h1 n hm rfl

theorem run_DisjInv : ∀ (acts : List Action) (s s1 : Sys), DisjInv s →
    s.submitsOutside Sys.runningNames acts = true → s.run acts = some s1 → DisjInv s1 := by
  intro acts
  induction acts with
  | nil =>
    intro s s1 hinv _ h
    simp only [Sys.run] at h
    cases h
    exact hinv
  | cons a rest ih =>
    intro s s1 hinv hsub h
    obtain ⟨s0, h0, h1⟩ := run_cons s a rest s1 h
    obtain ⟨g1, g2⟩ := submitsOutside_cons _ s s0 a rest h0 hsub
    have hstep := step_sound s s0 a h0
    exact ih s0 s1 (Step_DisjInv s s0 a hinv
      (fun n hn => List.count_eq_zero_of_not_mem (g1 n hn)) hstep) g2 h1

theorem NameInv_live (s : Sys) (subm : List String) (h : NameInv s subm) :
    NameInv s s.liveNames := by
  refine ⟨h.1, ?_⟩
  intro n
  obtain ⟨i1, _, i3, i4⟩ := h.2 n
  refine ⟨i1, ?_, i3, i4⟩
  intro hpos
  simp only [Sys.liveNames, List.count_append]
  exact hpos

theorem run_NameInv_live : ∀ (acts : List Action) (s s1 : Sys), NameInv s s.liveNames →
    s.submitsOutside Sys.liveNames acts = true → s.run acts = some s1 →
    NameInv s1 s1.liveNames := by
  intro acts
  induction acts with
  | nil =>
    intro s s1 hinv _ h
    simp only [Sys.run] at h
    cases h
    exact hinv
  | cons a rest ih =>
    intro s s1 hinv hsub h
    obtain ⟨s0, h0, h1⟩ := run_cons s a rest s1 h
    obtain ⟨g1, g2⟩ := submitsOutside_cons _ s s0 a rest h0 hsub
    have hstep := step_sound s s0 a h0
    have hnext := Step_NameInv s s0 a s.liveNames hinv
      (fun n hn => List.count_eq_zero_of_not_mem (g1 n hn)) hstep
    exact ih s0 s1 (NameInv_live s0 _ hnext) g2 h1

theorem countP_inRunning (l : List Task) :
    l.countP Task.inRunning =
      l.countP Task.holdsSlot + l.countP (fun t => decide (t.pc = .remove)) := by
  induction l with
  | nil => rfl
  | cons t l ih =>
    simp only [List.countP_cons, ih]
    cases hpc : t.pc <;> simp [Task.inRunning, Task.holdsSlot, hpc] <;> omega

theorem loopHoldsSlot_split (s : Sys) :
    (if s.loopHoldsSlot then 1 else 0) =
      (if s.loopHoldsUnmovedSlot then 1 else 0) + (s.runSide.length - s.tasks.countP Task.inRunning) := by
  obtain ⟨h, ctx, loop, tasks, infl, cr⟩ := s
  cases loop <;>
    simp [Sys.loopHoldsSlot, Sys.loopHoldsUnmovedSlot, Sys.runSide, List.countP_eq_length_filter]

theorem runSide_length (s : Sys) :
    s.runSide.length = (s.runSide.length - s.tasks.countP Task.inRunning) +
      s.tasks.countP Task.inRunning := by
  have : s.tasks.countP Task.inRunning ≤ s.runSide.length := by
    simp only [Sys.runSide, List.length_append, List.length_map, List.countP_eq_length_filter]
    omega
  omega

/-- C6, amended: in every state reachable from a fresh JobHandler by a trace in which no
submission is accepted under a name that is, at that moment, a key of the running table, no
job name is a key of both the pending table and the running table. -/
theorem pending_running_disjoint (N : Int) (h : JobHandler) (acts : List Action) (s : Sys)
    (hN : JobProcessor N = some h) (hrun : (Sys.fresh h).run acts = some s)
    (hsub : (Sys.fresh h).submitsOutside Sys.runningNames acts = true) :
    ∀ n : String, ¬ (n ∈ s.h.pendingJobs.keys ∧ n ∈ s.h.runningJobs.keys) := by
  obtain ⟨_, rfl⟩ := JobProcessor_some N h hN
  have h0 : DisjInv (Sys.fresh ⟨NewConcJobQueue, N.toNat, 0, [], [], false, false, 0⟩) := by
    intro n
    exact Or.inl rfl
  have hinv := run_DisjInv acts _ s h0 hsub hrun
  intro n ⟨hp, hr⟩
  have h1 := List.count_pos_iff.mpr hp
  have h2 := List.count_pos_iff.mpr hr
  have := hinv n
  omega

/-- C6, amended, on `twoSameNameLaunchedTrace` with capacity 2: the name "x" is submitted
twice, the second time while the first job is queued and not yet running. -/
theorem pending_running_disjoint_witness :
    JobProcessor 2 = some (freshHandler 2) ∧
    (Sys.fresh (freshHandler 2)).run twoSameNameLaunchedTrace = some twoSameNameState ∧
    (Sys.fresh (freshHandler 2)).submitsOutside Sys.runningNames twoSameNameLaunchedTrace
      = true ∧
    ∀ n : String, ¬ (n ∈ twoSameNameState.h.pendingJobs.keys ∧
      n ∈ twoSameNameState.h.runningJobs.keys) :=
  ⟨rfl, by decide, by decide,
    pending_running_disjoint 2 (freshHandler 2) twoSameNameLaunchedTrace twoSameNameState rfl
      (by decide) (by decide)⟩

/-- C7, as stated, fails. With capacity 1, right after the control loop has acquired a slot
for the queued job "x", one slot is occupied and the running table is empty. With capacity 1,
right after the task of job "x" has released its slot, no slot is occupied and the running
table still has the entry "x". And with capacity 2 and two launched jobs, the second
submitted under the name "x" while the first was queued, two slots are occupied and the
running table has one entry, while the loop is at the top of its iteration and both tasks
are in the backend call. -/
theorem slots_differ_from_running :
    (∃ s : Sys, Sys.runFresh 1 acquireTrace = some s ∧
      s.h.concurrencyLock = 1 ∧ s.h.runningJobs.length = 0) ∧
    (∃ s : Sys, Sys.runFresh 1 releasedTrace = some s ∧
      s.h.concurrencyLock = 0 ∧ s.h.runningJobs.length = 1 ∧
      s.tasks.map (fun t => t.pc) = [.remove]) ∧
    (∃ s : Sys, Sys.runFresh 2 twoSameNameLaunchedTrace = some s ∧
      s.h.concurrencyLock = 2 ∧ s.h.runningJobs.length = 1 ∧ s.loop = .selectStop ∧
      s.tasks.map (fun t => t.pc) = [.backend, .backend]) := by
  refine ⟨⟨_, rfl, ?_, ?_⟩, ⟨_, rfl, ?_, ?_, ?_⟩, ⟨_, rfl, ?_, ?_, ?_, ?_⟩⟩ <;> decide

/-- C7, amended: in every state reachable from a fresh JobHandler, the number of occupied
slots of concurrencyLock equals the number of launched execution tasks that have not yet
released their slot, plus one while the control loop holds a slot it has acquired and not
yet handed to a task. When, in addition, no submission of the trace is accepted under a name
that a job accepted earlier and not yet removed from the running table carries at that
moment, the number of occupied slots plus the number of tasks between their slot release
and their removal from the running table equals the number of entries of the runningJobs
table, plus one while the control loop is between its slot acquisition and the
pending-to-running move; so outside these two windows the number of occupied slots equals
the number of entries of the runningJobs table. -/
theorem slots_match_running (N : Int) (h : JobHandler) (acts : List Action) (s : Sys)
    (hN : JobProcessor N = some h) (hrun : (Sys.fresh h).run acts = some s) :
    s.h.concurrencyLock = s.activeTasks + (if s.loopHoldsSlot then 1 else 0) ∧
    ((Sys.fresh h).submitsOutside Sys.liveNames acts = true →
      s.h.concurrencyLock + s.releasedNotRemoved =
        s.h.runningJobs.length + (if s.loopHoldsUnmovedSlot then 1 else 0) ∧
      (s.loopHoldsUnmovedSlot = false → s.releasedNotRemoved = 0 →
        s.h.concurrencyLock = s.h.runningJobs.length)) := by
  have hslot := (run_SlotInv acts _ s (fresh_SlotInv N h hN) hrun).1
  refine ⟨hslot.1, ?_⟩
  intro hsub
  have hinv := run_NameInv_live acts _ s (NameInv_live _ _ (fresh_NameInv N h hN)) hsub hrun
  have hperm : List.Perm s.h.runningJobs.keys s.runSide :=
    List.perm_iff_count.mpr (fun n => (hinv.2 n).2.2.2)
  have hlen := hperm.length_eq
  have hcount := countP_inRunning s.tasks
  have h1 := hslot.1
  have hsplit := loopHoldsSlot_split s
  have hside := runSide_length s
  rw [hside] at hlen
  simp only [JobTable.keys, List.length_map] at hlen
  simp only [Sys.activeTasks] at h1
  simp only [Sys.releasedNotRemoved] at hcount ⊢
  constructor
  · omega
  · intro hq1 hq2
    rw [hq1] at hsplit
    simp only [Bool.false_eq_true, if_false] at hsplit
    omega

/-- C7, amended, on `reuseNameTrace` with capacity 1: the name "x" is submitted again after
the first job named "x" has left the running table; one slot is occupied and the running
table has one entry. -/
theorem slots_match_running_witness :
    JobProcessor 1 = some (freshHandler 1) ∧
    (Sys.fresh (freshHandler 1)).run reuseNameTrace = some reuseNameState ∧
    (Sys.fresh (freshHandler 1)).submitsOutside Sys.liveNames reuseNameTrace = true ∧
    reuseNameState.loopHoldsUnmovedSlot = false ∧ reuseNameState.releasedNotRemoved = 0 ∧
    reuseNameState.h.concurrencyLock =
      reuseNameState.activeTasks + (if reuseNameState.loopHoldsSlot then 1 else 0) ∧
    reuseNameState.h.concurrencyLock + reuseNameState.releasedNotRemoved =
      reuseNameState.h.runningJobs.length +
        (if reuseNameState.loopHoldsUnmovedSlot then 1 else 0) ∧
    reuseNameState.h.concurrencyLock = reuseNameState.h.runningJobs.length :=
  ⟨rfl, by decide, by decide, by decide, by decide,
    (slots_match_running 1 (freshHandler 1) reuseNameTrace reuseNameState rfl (by decide)).1,
    ((slots_match_running 1 (freshHandler 1) reuseNameTrace reuseNameState rfl
      (by decide)).2 (by decide)).1,
    ((slots_match_running 1 (freshHandler 1) reuseNameTrace reuseNameState rfl
      (by decide)).2 (by decide)).2 (by decide) (by decide)⟩

theorem Step_full_no_release (s s1 : Sys) (a : Action) (hinv : SlotInv s)
    (hfull : s.activeTasks = s.h.concurrencyCap) (hstep : Step s a s1)
    (hnr : ∀ i, a ≠ .taskRelease i) :
    s1.activeTasks = s1.h.concurrencyCap ∧ s1.tasks.length = s.tasks.length := by
  obtain ⟨h1, h2⟩ := hinv
  have hhold : s.loopHoldsSlot = false := by
    cases hh : s.loopHoldsSlot
    · rfl
    · simp only [hh, if_true] at h1; omega
  have hlock : s.h.concurrencyLock = s.h.concurrencyCap := by
    simp only [hhold, Bool.false_eq_true, if_false] at h1; omega
  simp only [Sys.activeTasks] at hfull
  cases hstep
  case taskRelease i t hc ht hpc hl => exact absurd rfl (hnr i)
  case taskBackend i o t hc ht hpc =>
    have := countP_set_task Task.holdsSlot s.tasks i t { t with pc := .release } ht
    simp [Task.holdsSlot, hpc] at this
    simp only [Sys.activeTasks, Sys.setTask]
    exact ⟨by omega, List.length_set _ _ _⟩
  case taskRemove i t hc ht hpc =>
    have := countP_set_task Task.holdsSlot s.tasks i t { t with pc := .wgDone } ht
    simp [Task.holdsSlot, hpc] at this
    simp only [Sys.activeTasks, Sys.setTask]
    exact ⟨by omega, List.length_set _ _ _⟩
  case taskDone i t hc ht hpc =>
    have := countP_set_task Task.holdsSlot s.tasks i t { t with pc := .finished } ht
    simp [Task.holdsSlot, hpc] at this
    simp only [Sys.activeTasks, Sys.setTask]
    exact ⟨by omega, List.length_set _ _ _⟩
  case loopDrain hc hl hwg =>
    simp only [Sys.activeTasks, Sys.closeDone]
    split <;> exact ⟨hfull, rfl⟩
  case loopStartDefer hc hl =>
    simp only [Sys.activeTasks, Sys.closeDone]
    split <;> exact ⟨hfull, rfl⟩
  case loopAcquire hc hl hfree => omega
  case loopDequeue hc hl => simp [Sys.loopHoldsSlot, hl] at hhold
  case loopMoveNil hc hl hlk => simp [Sys.loopHoldsSlot, hl] at hhold
  case loopMoveBadType job tn hc hl hspec hlk => simp [Sys.loopHoldsSlot, hl] at hhold
  case loopMove job spec hc hl hspec => simp [Sys.loopHoldsSlot, hl] at hhold
  case loopLaunch spec hc hl => simp [Sys.loopHoldsSlot, hl] at hhold
  all_goals exact ⟨hfull, rfl⟩

theorem run_full_no_release : ∀ (more : List Action) (s s2 : Sys), SlotInv s →
    s.activeTasks = s.h.concurrencyCap → s.run more = some s2 →
    (∀ i, Action.taskRelease i ∉ more) →
    s2.tasks.length = s.tasks.length ∧ s2.activeTasks = s2.h.concurrencyCap ∧ SlotInv s2 := by
  intro more
  induction more with
  | nil =>
    intro s s2 hinv hfull h _
    simp only [Sys.run] at h
    cases h
    exact ⟨rfl, hfull, hinv⟩
  | cons a rest ih =>
    intro s s2 hinv hfull h hnr
    obtain ⟨s0, h0, h1⟩ := run_cons s a rest s2 h
    have hstep := step_sound s s0 a h0
    have hne : ∀ i, a ≠ .taskRelease i := by
      intro i e
      exact hnr i (by rw [e]; exact List.mem_cons_self _ _)
    obtain ⟨g1, g2⟩ := Step_full_no_release s s0 a hinv hfull hstep hne
    obtain ⟨k1, k2, k3⟩ := ih s0 s2 (Step_SlotInv s s0 a hinv hstep) g1 h1
      (fun i hi => hnr i (List.mem_cons_of_mem _ hi))
    exact ⟨k1.trans g2, k2, k3⟩

/-- C8: for every admission capacity N given to JobProcessor and every trace from the fresh
handler, the number of execution tasks that have been launched and have not yet released
their slot is at most N; and from a state with N such tasks, no continuation without a slot
release by a task launches a further task or lets the control loop hold a slot. -/
theorem active_tasks_bounded (N : Int) (h : JobHandler) (acts : List Action) (s : Sys)
    (hN : JobProcessor N = some h) (hrun : (Sys.fresh h).run acts = some s) :
    (s.activeTasks : Int) ≤ N ∧
    ((s.activeTasks : Int) = N → ∀ (more : List Action) (s2 : Sys), s.run more = some s2 →
      (∀ i, Action.taskRelease i ∉ more) →
      s2.tasks.length = s.tasks.length ∧ s2.loopHoldsSlot = false) := by
  obtain ⟨hslot, hcap⟩ := run_SlotInv acts _ s (fresh_SlotInv N h hN) hrun
  obtain ⟨hN0, rfl⟩ := JobProcessor_some N h hN
  simp only [Sys.fresh] at hcap
  have h1 := hslot.1
  have h2 := hslot.2
  constructor
  · omega
  · intro hfull more s2 hmore hnr
    obtain ⟨k1, k2, k3⟩ := run_full_no_release more s s2 hslot (by omega) hmore hnr
    refine ⟨k1, ?_⟩
    have g1 := k3.1
    have g2 := k3.2
    cases hh : s2.loopHoldsSlot
    · rfl
    · simp only [hh, if_true] at g1; omega

/-- C8 on `distinctNameTrace` with capacity 1, continued by `noReleaseTrace`: one task is
active, and the control loop ends up waiting for a slot. -/
theorem active_tasks_bounded_witness :
    JobProcessor 1 = some (freshHandler 1) ∧
    (Sys.fresh (freshHandler 1)).run distinctNameTrace = some distinctNameState ∧
    (distinctNameState.activeTasks : Int) = 1 ∧
    distinctNameState.run noReleaseTrace = some waitingState ∧
    (∀ i, Action.taskRelease i ∉ noReleaseTrace) ∧
    (distinctNameState.activeTasks : Int) ≤ 1 ∧
    waitingState.tasks.length = distinctNameState.tasks.length ∧
    waitingState.loopHoldsSlot = false :=
  ⟨rfl, by decide, by decide, by decide, by simp [noReleaseTrace],
    (active_tasks_bounded 1 (freshHandler 1) distinctNameTrace distinctNameState rfl
      (by decide)).1,
    (active_tasks_bounded 1 (freshHandler 1) distinctNameTrace distinctNameState rfl
      (by decide)).2 (by decide) noReleaseTrace waitingState (by decide)
      (by simp [noReleaseTrace])⟩

theorem Step_DoneInv (s s1 : Sys) (a : Action) (hinv : DoneInv s) (h : Step s a s1) :
    DoneInv s1 := by
  unfold DoneInv at hinv ⊢
  cases h
  case loopDrain hc hl hwg =>
    simp only [Sys.closeDone]
    split
    · intro h2; simp [hl] at h2
    · intro _; rfl
  case loopStartDefer hc hl =>
    simp only [Sys.closeDone]
    split
    · intro _; exact hinv hl
    · intro h2; simp at h2
  all_goals simp_all [Sys.goto, Sys.setTask, JobHandler.enqueuePending]

theorem run_DoneInv : ∀ (acts : List Action) (s s1 : Sys), DoneInv s → s.run acts = some s1 →
    DoneInv s1 := by
  intro acts
  induction acts with
  | nil =>
    intro s s1 hinv h
    simp only [Sys.run] at h
    cases h
    exact hinv
  | cons a rest ih =>
    intro s s1 hinv h
    obtain ⟨s0, h0, h1⟩ := run_cons s a rest s1 h
    exact ih s0 s1 (Step_DoneInv s s0 a hinv (step_sound s s0 a h0)) h1

/-- In every run from a fresh handler, once the control loop has returned and the deferred
function of `processJobs` has closed `doneCh`, the deferred function of the goroutine of
`Start` closes it again: the step ends the process with a panic. -/
theorem startDefer_panics (h : JobHandler) (acts : List Action) (s : Sys)
    (hrun : (Sys.fresh h).run acts = some s)
    (hl : s.loop = .startDefer) (hc : s.crashed = false) :
    s.step .loopStartDefer = some { s with crashed := true } := by
  have hinv : DoneInv (Sys.fresh h) := by intro h2; simp [Sys.fresh] at h2
  have hd := run_DoneInv acts _ s hinv hrun hl
  simp [Sys.step, hc, hl, Sys.closeDone, hd]

/-- C9, evaluated on the code: job "x" is launched with capacity 1 and Shutdown is called
while it is in the backend call. The deferred function of processJobs cannot close doneCh
before the task has finished, and closes it once the task has released its slot, removed
itself from the running table and signalled the wait group. The deferred function of the
goroutine of Start then closes doneCh a second time, which is a run-time panic that nothing
recovers. -/
theorem done_closed_twice :
    (∃ s : Sys, Sys.runFresh 1 shutdownTrace = some s ∧ s.loop = .drain ∧
      s.h.runningJobs.keys = ["x"] ∧ s.step .loopDrain = none) ∧
    (∃ s : Sys, Sys.runFresh 1 (shutdownTrace ++ taskFinishTrace ++ [.loopDrain]) = some s ∧
      s.h.doneCh = true ∧ s.h.concurrencyLock = 0 ∧ s.h.runningJobs = [] ∧
      s.loop = .startDefer ∧ s.crashed = false) ∧
    (∃ s : Sys, Sys.runFresh 1 (shutdownTrace ++ taskFinishTrace ++
        [.loopDrain, .loopStartDefer]) = some s ∧ s.crashed = true) := by
  refine ⟨⟨_, rfl, ?_, ?_, ?_⟩, ⟨_, rfl, ?_, ?_, ?_, ?_, ?_⟩, ⟨_, rfl, ?_⟩⟩ <;> decide

/-- C10, evaluated on the code. After the context is cancelled with an empty queue, the only
enabled case of the first select is the cancellation case, and one iteration of the control
loop leads back to the same state: the loop does not stop. After the context is cancelled
with job "x" queued and a slot free, the loop can acquire the slot, dequeue "x" and launch
it. After Shutdown, in the same two situations, the loop leaves through the shutdown case
and no other case of the first select is enabled. -/
theorem cancel_does_not_stop_loop :
    (∃ s : Sys, Sys.runFresh 1 cancelEmptyTrace = some s ∧ s.loop = .selectStop ∧
      s.step .loopStopShutdown = none ∧ s.step .loopStopDefault = none ∧
      s.run [.loopStopCtx, .loopCheckEmpty] = some s) ∧
    (∃ s : Sys, Sys.runFresh 1 (cancelQueuedTrace ++ iterationAfterCancel) = some s ∧
      s.ctxDone = true ∧ s.h.jobQueue.Size = 0 ∧ s.h.runningJobs.keys = ["x"] ∧
      s.tasks.length = 1 ∧ s.loop = .selectStop) ∧
    (∃ s : Sys, Sys.runFresh 1 shutdownQueuedTrace = some s ∧
      s.step .loopStopCtx = none ∧ s.step .loopStopDefault = none ∧
      (s.step .loopStopShutdown).map (fun s1 => (s1.loop, s1.h.jobQueue.Size)) =
        some (.drain, 1)) := by
  refine ⟨⟨_, rfl, ?_, ?_, ?_, ?_⟩, ⟨_, rfl, ?_, ?_, ?_, ?_, ?_⟩, ⟨_, rfl, ?_, ?_, ?_⟩⟩ <;>
    decide

/-! ## Submissions after shutdown -/

/-- Enqueue adds exactly one cell to the slice, whatever the slice holds. -/
theorem Enqueue_size (jq : ConcJobQueue) (id : String) (priority : Int) (spec : SpecValue) :
    (jq.Enqueue id priority spec).2.Size = jq.Size + 1 := by
  simp only [ConcJobQueue.Enqueue, ConcJobQueue.Size, PriorityQueue.Len, heap.PushAt,
    heap.upAt, upLoop_length, Push_length]

/-- C11, as stated, fails: with capacity 1, after Start and Shutdown (shutdownCh closed, the
control loop gone through its shutdown case), a submission named "x" is answered with
HTTP 202, and it is stored in the pending table and in the queue, both empty before. -/
theorem submission_accepted_after_shutdown :
    (∃ s : Sys, Sys.runFresh 1 [.start, .shutdown, .loopStopShutdown] = some s ∧
      s.h.shutdownCh = true ∧ s.h.jobQueue.Size = 0 ∧ s.h.pendingJobs = [] ∧
      (s.h.JobSubmissionHandler (scenarioBody "x" 1) "u1").1.status = 202 ∧
      (s.h.JobSubmissionHandler (scenarioBody "x" 1) "u1").2.jobQueue.Size = 1 ∧
      (s.h.JobSubmissionHandler (scenarioBody "x" 1) "u1").2.pendingJobs.keys = ["x"]) ∧
    (∃ s : Sys, Sys.runFresh 1 lateSubmissionTrace = some s ∧ s.h.shutdownCh = true ∧
      s.loop = .drain ∧ s.h.jobQueue.Size = 1 ∧ s.h.pendingJobs.keys = ["x"]) := by
  refine ⟨⟨_, rfl, ?_, ?_, ?_, ?_, ?_, ?_⟩, ⟨_, rfl, ?_, ?_, ?_, ?_⟩⟩ <;> decide

/-- C11, amended: for every submission with a non-empty name that arrives after Shutdown
has been initiated (shutdownCh closed), JobSubmissionHandler does not consult shutdownCh:
it answers HTTP 202, stores the job under its name in the pending table and enqueues it, so
the queue grows by one entry; the response, the queue and the pending table are the ones
the same call produces with shutdownCh open, and the running table and shutdownCh are left
as they were. -/
theorem submission_ignores_shutdown (h : JobHandler) (decoded : JobSpec) (jobID : String)
    (hshut : h.shutdownCh = true) (hname : decoded.Name ≠ "") :
    (h.JobSubmissionHandler (.ok decoded) jobID).1.status = 202 ∧
    (h.JobSubmissionHandler (.ok decoded) jobID).2.jobQueue.Size = h.jobQueue.Size + 1 ∧
    (h.JobSubmissionHandler (.ok decoded) jobID).2.pendingJobs =
      h.pendingJobs.insert decoded.Name { decoded with ID := jobID } ∧
    (h.JobSubmissionHandler (.ok decoded) jobID).2.runningJobs = h.runningJobs ∧
    (h.JobSubmissionHandler (.ok decoded) jobID).2.shutdownCh = true ∧
    (h.JobSubmissionHandler (.ok decoded) jobID).1 =
      (({ h with shutdownCh := false } : JobHandler).JobSubmissionHandler (.ok decoded) jobID).1 ∧
    (h.JobSubmissionHandler (.ok decoded) jobID).2.jobQueue =
      (({ h with shutdownCh := false } : JobHandler).JobSubmissionHandler (.ok decoded) jobID).2.jobQueue ∧
    (h.JobSubmissionHandler (.ok decoded) jobID).2.pendingJobs =
      (({ h with shutdownCh := false } : JobHandler).JobSubmissionHandler (.ok decoded) jobID).2.pendingJobs := by
  have hsize := Enqueue_size h.jobQueue jobID decoded.Priority
    (.jobSpec { decoded with ID := jobID })
  have e : ∀ g : JobHandler, g.JobSubmissionHandler (.ok decoded) jobID =
      (.accepted decoded.Name jobID
          (g.jobQueue.Enqueue jobID decoded.Priority (.jobSpec { decoded with ID := jobID })).1,
        { g with
          pendingJobs := g.pendingJobs.insert decoded.Name { decoded with ID := jobID }
          jobQueue :=
            (g.jobQueue.Enqueue jobID decoded.Priority
              (.jobSpec { decoded with ID := jobID })).2 }) := by
    intro g
    simp only [JobHandler.JobSubmissionHandler, JobHandler.recordPending, hname, if_false,
      JobHandler.enqueuePending]
  rw [e h, e { h with shutdownCh := false }]
  exact ⟨rfl, hsize, rfl, rfl, hshut, rfl, rfl, rfl⟩

/-- C11, amended, on `shutdownHandler` and a submission named "x". -/
theorem submission_ignores_shutdown_witness :
    shutdownHandler.shutdownCh = true ∧ (scenarioSpec "x" 1).Name ≠ "" ∧
    (shutdownHandler.JobSubmissionHandler (.ok (scenarioSpec "x" 1)) "u1").1.status = 202 ∧
    (shutdownHandler.JobSubmissionHandler (.ok (scenarioSpec "x" 1)) "u1").2.jobQueue.Size =
      shutdownHandler.jobQueue.Size + 1 ∧
    (shutdownHandler.JobSubmissionHandler (.ok (scenarioSpec "x" 1)) "u1").2.pendingJobs =
      shutdownHandler.pendingJobs.insert (scenarioSpec "x" 1).Name
        { scenarioSpec "x" 1 with ID := "u1" } := by
  have h := submission_ignores_shutdown shutdownHandler (scenarioSpec "x" 1) "u1" rfl
    (by decide)
  exact ⟨rfl, by decide, h.1, h.2.1, h.2.2.1⟩

end KubeJobs
